import Mathlib

/-!
# Verification of the DHT comparison core (`dht_comparison`)

Shallow embedding of the Python sources under `src/dht_comparison/`
(`base.py`, `chord.py`, `kademlia.py`, `pastry.py`) together with proofs
about the routing state machines.

Modelling conventions:
* Python integers are `Int` for the ring overlay (`chord.py`, whose failed
  lookups use the sentinel `-1`) and `Nat` for the XOR (`kademlia.py`) and
  prefix (`pastry.py`) overlays, whose ids never leave `[0, 2^m)`.
* Python objects live in a heap keyed by `node_id`; the simulator registry
  (`NetworkSimulator.nodes`, base.py lines 32-46) is the set `reg` of
  registered ids.  `get_node` finds a node iff its id is registered, which
  matches the Python dict.  Distinct objects always carry distinct ids in
  the benchmark harness, so object identity is keyed by id.
* Python dicts become association lists (`alistGet`/`alistSet`), Python
  `list.sort(key=...)` becomes the stable insertion sort `sortByKey`,
  Python `min(..., key=...)` (first minimum wins) becomes `pyMinBy`.
* Unbounded `while` loops take an explicit fuel argument that provably
  dominates the loop bound enforced by the code itself.
-/

/-- First binding of a key in an association list (Python `dict.get`). -/
def alistGet {κ α : Type} [DecidableEq κ] : List (κ × α) → κ → Option α
  | [], _ => none
  | (k, v) :: rest, key => if k = key then some v else alistGet rest key

/-- Set a key in an association list (Python `dict.__setitem__`):
replace the existing binding, else append. -/
def alistSet {κ α : Type} [DecidableEq κ] : List (κ × α) → κ → α → List (κ × α)
  | [], key, v => [(key, v)]
  | (k, w) :: rest, key, v =>
    if k = key then (k, v) :: rest else (k, w) :: alistSet rest key v

/-- Stable insert for `sortByKey`: `x` goes after every element whose key
is `≤` its own, as Python's stable `list.sort` does. -/
def insertByKey {α : Type} (f : α → Nat) (x : α) : List α → List α
  | [] => [x]
  | y :: ys => if f y ≤ f x then y :: insertByKey f x ys else x :: y :: ys

/-- Stable sort by a `Nat` key, modelling Python `list.sort(key=f)`. -/
def sortByKey {α : Type} (f : α → Nat) (l : List α) : List α :=
  l.foldl (fun acc x => insertByKey f x acc) []

/-- Python `min(x :: xs, key=f)`: the first element attaining the minimum. -/
def pyMinBy {α : Type} (f : α → Nat) (x : α) (xs : List α) : α :=
  xs.foldl (fun b y => if f y < f b then y else b) x

/-- `LookupResult` (base.py lines 14-21): result record of a DHT lookup. -/
structure LookupResult (α : Type) where
  key : α
  responsible_node : α
  hop_count : Nat
  path : List α
  success : Bool
deriving Repr, DecidableEq

/-- The in-process registry (`NetworkSimulator`, base.py lines 24-46),
specialised to one node type: `heap` holds every node object ever
constructed, keyed by its id; `reg` holds the registered ids.
`register`/`unregister`/`get_node` act on `reg`. -/
structure Net (κ ν : Type) where
  heap : List (κ × ν)
  reg : List κ
deriving Repr, DecidableEq

/-- Dereference an object by id (any live Python reference). -/
def Net.getObj {κ ν : Type} [DecidableEq κ] (net : Net κ ν) (i : κ) : Option ν :=
  alistGet net.heap i

/-- `NetworkSimulator.get_node` (base.py line 41): registered nodes only. -/
def Net.getNode {κ ν : Type} [DecidableEq κ] (net : Net κ ν) (i : κ) : Option ν :=
  if i ∈ net.reg then alistGet net.heap i else none

/-- Overwrite (or create) the heap object with id `i`. -/
def Net.setObj {κ ν : Type} [DecidableEq κ] (net : Net κ ν) (i : κ) (n : ν) : Net κ ν :=
  { net with heap := alistSet net.heap i n }

/-- Apply `f` to the heap object with id `i`, if present. -/
def Net.modifyObj {κ ν : Type} [DecidableEq κ] (net : Net κ ν) (i : κ) (f : ν → ν) : Net κ ν :=
  match alistGet net.heap i with
  | some n => net.setObj i (f n)
  | none => net

/-- `NetworkSimulator.register` (base.py line 35). -/
def Net.register {κ ν : Type} [DecidableEq κ] (net : Net κ ν) (i : κ) : Net κ ν :=
  { net with reg := if i ∈ net.reg then net.reg else i :: net.reg }

/-- `NetworkSimulator.unregister` (base.py line 38). -/
def Net.unregister {κ ν : Type} [DecidableEq κ] (net : Net κ ν) (i : κ) : Net κ ν :=
  { net with reg := net.reg.filter (fun x => x ≠ i) }

/-- Parameter list of `NetworkSimulator.__init__` as written in
base.py line 32 (`def __init__(self):`). -/
def networkSimulatorInitParams : List String := ["self"]

/-! ## Chord (`chord.py`) -/

/-- `ChordNode` state (chord.py lines 23-30).  Ids are `Int` because a
failed lookup writes the sentinel `-1` into `responsible_node`, which
`join` can in turn copy into `successor`. -/
structure ChordNode where
  node_id : Int
  id_bits : Nat
  successor : Int
  predecessor : Option Int
  finger_table : List Int
  successor_list : List Int
  successor_list_size : Nat
  data : List (Int × Int)
deriving Repr, DecidableEq

/-- Chord constructor (chord.py lines 23-30). -/
def chordInit (nid : Int) (m : Nat) : ChordNode :=
  { node_id := nid, id_bits := m, successor := nid, predecessor := none
    finger_table := List.replicate m nid, successor_list := []
    successor_list_size := 3, data := [] }

abbrev ChordNet := Net Int ChordNode

/-- `ChordNode._in_open` (chord.py lines 36-42): open ring interval. -/
def inOpen (x a b : Int) : Bool :=
  if a = b then decide (x ≠ a)
  else if a < b then decide (a < x ∧ x < b)
  else decide (x > a ∨ x < b)

/-- `ChordNode._in_half_open` (chord.py lines 44-50): half-open ring interval. -/
def inHalfOpen (x a b : Int) : Bool :=
  if a = b then true
  else if a < b then decide (a < x ∧ x ≤ b)
  else decide (x > a ∨ x ≤ b)

/-- Scan of `_closest_preceding_finger` (chord.py lines 56-63) over the
given descending index list. -/
def chordCPFGo (net : ChordNet) (n : ChordNode) (key : Int) : List Nat → Int
  | [] => n.node_id
  | i :: is =>
    let f := n.finger_table.getD i n.node_id
    if f ≠ n.node_id ∧ inOpen f n.node_id key ∧ (net.getNode f).isSome then f
    else chordCPFGo net n key is

/-- `ChordNode._closest_preceding_finger` (chord.py lines 56-63). -/
def chordCPF (net : ChordNet) (n : ChordNode) (key : Int) : Int :=
  chordCPFGo net n key (List.range n.id_bits).reverse

/-- Body of the `while hops <= self.id_bits * 2` loop of
`ChordNode.lookup` (chord.py lines 65-86).  `m` is the initiator's
`id_bits`; the fuel strictly dominates the hop cap, so the fuel-0 branch
is unreachable from `chordLookup`. -/
def chordLookupGo (net : ChordNet) (m : Nat) (key : Int) :
    Nat → ChordNode → Nat → List Int → LookupResult Int
  | 0, _, hops, path => ⟨key, -1, hops, path, false⟩
  | fuel + 1, current, hops, path =>
    if hops ≤ 2 * m then
      if inHalfOpen key current.node_id current.successor then
        ⟨key, current.successor, hops, path, true⟩
      else
        let next_id := chordCPF net current key
        if next_id = current.node_id then ⟨key, current.successor, hops, path, true⟩
        else
          match net.getNode next_id with
          | none => ⟨key, current.successor, hops, path, true⟩
          | some next_node =>
            chordLookupGo net m key fuel next_node (hops + 1) (path ++ [next_id])
    else ⟨key, -1, hops, path, false⟩

/-- `ChordNode.lookup` (chord.py lines 65-86).  Pure: Chord lookups
mutate no node. -/
def chordLookup (net : ChordNet) (n : ChordNode) (key : Int) : LookupResult Int :=
  chordLookupGo net n.id_bits key (2 * n.id_bits + 2) n 0 [n.node_id]

/-- Finger-table initialisation loop of `ChordNode.join` (chord.py lines
110-114): for each `i` in the given list, look up
`(node_id + 2^i) mod 2^m` through the bootstrap and store the result in
finger `i`, accumulating `hop_count + 1` messages per query. -/
def chordJoinFingers (net : ChordNet) (bnode : ChordNode) :
    ChordNode × Nat → List Nat → ChordNode × Nat
  | acc, [] => acc
  | (n, messages), i :: is =>
    let target := (n.node_id + 2 ^ i) % (2 ^ n.id_bits : Int)
    let r := chordLookup net bnode target
    chordJoinFingers net bnode
      ({ n with finger_table := n.finger_table.set i r.responsible_node },
        messages + r.hop_count + 1) is

/-- `ChordNode.join` (chord.py lines 92-117), acting on the heap object
with id `selfId`.  Returns `none` when Python raises (`bootstrap` id not
registered: `bootstrap.lookup` on `None`, chord.py line 103); the raise
happens before any mutation. -/
def chordJoin (net : ChordNet) (selfId : Int) (bootstrap : Option Int) :
    Option (ChordNet × Nat) :=
  match net.getObj selfId with
  | none => none
  | some n =>
    match bootstrap with
    | none =>
      let n2 := { n with predecessor := none, successor := n.node_id,
                         finger_table := List.replicate n.id_bits n.node_id }
      some (((net.setObj selfId n2).register selfId), 0)
    | some b =>
      match net.getNode b with
      | none => none
      | some bnode =>
        let r := chordLookup net bnode n.node_id
        let n1 := { n with successor := r.responsible_node,
                           finger_table := n.finger_table.set 0 r.responsible_node,
                           predecessor := none }
        let (n2, messages) :=
          chordJoinFingers net bnode (n1, r.hop_count + 1)
            ((List.range n.id_bits).drop 1)
        some (((net.setObj selfId n2).register selfId), messages)

/-- `ChordNode.leave` (chord.py lines 119-142), acting on the heap object
with id `selfId`. -/
def chordLeave (net : ChordNet) (selfId : Int) : ChordNet × Nat :=
  match net.getObj selfId with
  | none => (net, 0)
  | some n =>
    -- successor adopts our predecessor
    let (net1, m1) : ChordNet × Nat :=
      if n.successor ≠ n.node_id then
        match net.getNode n.successor with
        | some _ =>
          (net.modifyObj n.successor (fun s => { s with predecessor := n.predecessor }), 1)
        | none => (net, 0)
      else (net, 0)
    -- predecessor adopts our successor (and fixes its finger 0)
    let (net2, m2) : ChordNet × Nat :=
      match n.predecessor with
      | some p =>
        if p ≠ n.node_id then
          match net1.getNode p with
          | some _ =>
            (net1.modifyObj p (fun q =>
              { q with successor := n.successor,
                       finger_table := q.finger_table.set 0 n.successor }), 1)
          | none => (net1, 0)
        else (net1, 0)
      | none => (net1, 0)
    -- transfer local data to successor
    let net3 : ChordNet :=
      if n.successor ≠ n.node_id then
        match net2.getNode n.successor with
        | some _ =>
          net2.modifyObj n.successor (fun s =>
            { s with data := n.data.foldl (fun acc kv => alistSet acc kv.1 kv.2) s.data })
        | none => net2
      else net2
    (net3.unregister selfId, m1 + m2)

/-- `ChordNode._notify` (chord.py lines 148-153), run on the heap object
with id `selfId` with candidate `c`. -/
def chordNotify (net : ChordNet) (selfId : Int) (c : Int) : ChordNet :=
  net.modifyObj selfId (fun n =>
    if c = n.node_id then n
    else if n.predecessor = none ∨ inOpen c (n.predecessor.getD 0) n.node_id then
      { n with predecessor := some c }
    else n)

/-- First entry of `successor_list` that is still registered (the backup
scan of `ChordNode.stabilize`, chord.py lines 159-164). -/
def chordFirstLive (net : ChordNet) : List Int → Option Int
  | [] => none
  | b :: bs => if (net.getNode b).isSome then some b else chordFirstLive net bs

/-- Finger-repair loop of `ChordNode.stabilize` (chord.py lines 181-185):
re-look up each finger target from the node itself and overwrite the
finger on success. -/
def chordFixFingers (selfId : Int) : ChordNet → List Nat → ChordNet
  | net, [] => net
  | net, i :: is =>
    let net2 :=
      match net.getObj selfId with
      | none => net
      | some n =>
        let target := (n.node_id + 2 ^ i) % (2 ^ n.id_bits : Int)
        let r := chordLookup net n target
        if r.success then
          net.setObj selfId { n with finger_table := n.finger_table.set i r.responsible_node }
        else net
    chordFixFingers selfId net2 is

/-- Successor-list rebuild of `ChordNode.stabilize` (chord.py lines
188-197): walk forward along successors, collecting up to
`successor_list_size` ids. -/
def chordWalkSucc (net : ChordNet) (selfId : Int) : Nat → Int → List Int
  | 0, _ => []
  | steps + 1, cur =>
    if cur = selfId then []
    else
      cur :: (match net.getNode cur with
              | none => []
              | some node => chordWalkSucc net selfId steps node.successor)

/-- Steps (2)-(5) of `ChordNode.stabilize` (chord.py lines 169-197),
entered once a live successor exists. -/
def chordStabCont (net : ChordNet) (selfId : Int) : ChordNet :=
  match net.getObj selfId with
  | none => net
  | some n =>
    -- step 2: adopt successor's predecessor if it lies in between
    let net2 :=
      match net.getNode n.successor with
      | none => net
      | some succ =>
        match succ.predecessor with
        | none => net
        | some x =>
          if x ≠ n.node_id ∧ (net.getNode x).isSome ∧ inOpen x n.node_id n.successor then
            net.setObj selfId
              { n with successor := x, finger_table := n.finger_table.set 0 x }
          else net
    -- step 3: notify the live successor
    let net3 :=
      match net2.getObj selfId with
      | none => net2
      | some n2 =>
        match net2.getNode n2.successor with
        | none => net2
        | some succ_node => chordNotify net2 succ_node.node_id n2.node_id
    -- step 4: repair every finger
    let net4 :=
      match net3.getObj selfId with
      | none => net3
      | some n3 => chordFixFingers selfId net3 (List.range n3.id_bits)
    -- step 5: rebuild the successor list
    match net4.getObj selfId with
    | none => net4
    | some n4 =>
      net4.setObj selfId
        { n4 with successor_list := chordWalkSucc net4 n4.node_id n4.successor_list_size n4.successor }

/-- `ChordNode.stabilize` (chord.py lines 155-197), acting on the heap
object with id `selfId`.  Step (1) repairs a dead successor from the
successor list; with no live backup the successor is reset to the node's
own id and the method returns early (without touching the finger table). -/
def chordStabilize (net : ChordNet) (selfId : Int) : ChordNet :=
  match net.getObj selfId with
  | none => net
  | some n =>
    match net.getNode n.successor with
    | some _ => chordStabCont net selfId
    | none =>
      match chordFirstLive net n.successor_list with
      | some backup =>
        chordStabCont
          (net.setObj selfId
            { n with successor := backup, finger_table := n.finger_table.set 0 backup })
          selfId
      | none => net.setObj selfId { n with successor := n.node_id }

/-- `ChordNode.store` (chord.py lines 203-211), from the heap object with
id `selfId`. -/
def chordStore (net : ChordNet) (selfId : Int) (key v : Int) : ChordNet × Bool :=
  match net.getObj selfId with
  | none => (net, false)
  | some n =>
    let r := chordLookup net n key
    if r.success then
      match net.getNode r.responsible_node with
      | none => (net, false)
      | some _ =>
        (net.modifyObj r.responsible_node (fun t => { t with data := alistSet t.data key v }),
          true)
    else (net, false)

/-- `ChordNode.retrieve` (chord.py lines 213-220): pure, mutates nothing. -/
def chordRetrieve (net : ChordNet) (selfId : Int) (key : Int) : Option Int :=
  match net.getObj selfId with
  | none => none
  | some n =>
    let r := chordLookup net n key
    if r.success then
      match net.getNode r.responsible_node with
      | none => none
      | some t => alistGet t.data key
    else none

/-- `ChordNode.routing_table_size` (chord.py lines 222-223):
`len(set(finger_table) - {node_id})`. -/
def chordRTS (n : ChordNode) : Nat :=
  (n.finger_table.dedup.filter (fun x => x ≠ n.node_id)).length

/-! ## Kademlia (`kademlia.py`) -/

/-- `KademliaNode` state (kademlia.py lines 23-28). -/
structure KademliaNode where
  node_id : Nat
  id_bits : Nat
  k : Nat
  alpha : Nat
  buckets : List (List Nat)
  data : List (Nat × Nat)
deriving Repr, DecidableEq

/-- Kademlia constructor (kademlia.py lines 23-28). -/
def kadInit (nid m k a : Nat) : KademliaNode :=
  { node_id := nid, id_bits := m, k := k, alpha := a
    buckets := List.replicate m [], data := [] }

abbrev KadNet := Net Nat KademliaNode

/-- `KademliaNode._distance` (kademlia.py lines 34-36): XOR metric. -/
def kdist (a b : Nat) : Nat := a ^^^ b

/-- Floor base-2 logarithm by structural recursion on a fuel bound, so
that the kernel can evaluate it (`Nat.log2` is defined by well-founded
recursion and does not reduce). -/
def blogGo : Nat → Nat → Nat
  | 0, _ => 0
  | fuel + 1, n => if n ≤ 1 then 0 else blogGo fuel (n / 2) + 1

/-- `int.bit_length() - 1` for positive arguments: floor log2. -/
def blog2 (n : Nat) : Nat := blogGo n n

/-- `blog2` agrees with `Nat.log2`. -/
theorem blogGo_eq_log2 : ∀ (fuel n : Nat), n ≤ fuel → blogGo fuel n = Nat.log2 n := by
  intro fuel
  induction fuel with
  | zero =>
    intro n hn
    interval_cases n
    simp [blogGo, Nat.log2]
  | succ fuel ih =>
    intro n hn
    rw [blogGo, Nat.log2]
    by_cases h1 : n ≤ 1
    · rw [if_pos h1, if_neg (by omega)]
    · rw [if_neg h1, if_pos (by omega), ih (n / 2) (by omega)]

/-- `blog2` agrees with `Nat.log2`. -/
theorem blog2_eq_log2 (n : Nat) : blog2 n = Nat.log2 n :=
  blogGo_eq_log2 n n le_rfl

/-- `KademliaNode._bucket_index` (kademlia.py lines 38-42):
`dist.bit_length() - 1` is floor log2 for positive `dist`. -/
def kadBucketIndex (n : KademliaNode) (i : Nat) : Nat :=
  let dist := kdist n.node_id i
  if dist = 0 then 0 else blog2 dist

/-- `KademliaNode._update_bucket` (kademlia.py lines 48-58): move a known
peer to the bucket tail, append a new one while capacity remains,
silently drop otherwise. -/
def kadUpdateBucket (n : KademliaNode) (i : Nat) : KademliaNode :=
  if i = n.node_id then n
  else
    let idx := kadBucketIndex n i
    let bucket := n.buckets.getD idx []
    let bucket2 :=
      if i ∈ bucket then bucket.erase i ++ [i]
      else if bucket.length < n.k then bucket ++ [i]
      else bucket
    { n with buckets := n.buckets.set idx bucket2 }

/-- `KademliaNode._find_closest_local` (kademlia.py lines 60-67): all
known ids, stably sorted by XOR distance to the target, truncated. -/
def kadFindClosestLocal (n : KademliaNode) (target count : Nat) : List Nat :=
  (sortByKey (fun nid => kdist nid target) n.buckets.flatten).take count

/-- `KademliaNode.find_node_rpc` (kademlia.py lines 73-80), run on peer
`q`: observe the querier, then return the `k` closest known ids to the
target, self included. -/
def kadFindNodeRPC (q : KademliaNode) (target querier : Nat) :
    KademliaNode × List Nat :=
  let q2 := kadUpdateBucket q querier
  let closest := kadFindClosestLocal q2 target q2.k
  (q2, (sortByKey (fun nid => kdist nid target) (closest ++ [q2.node_id])).take q2.k)

/-- Ingestion of one id returned by `find_node_rpc` (kademlia.py lines
116-120): bucket-update it and extend the shortlist if it is new.
State: (self, shortlist, found_new). -/
def kadIngest (st : KademliaNode × List Nat × Bool) (r : Nat) :
    KademliaNode × List Nat × Bool :=
  let (selfN, shortlist, found_new) := st
  let selfN2 := kadUpdateBucket selfN r
  if r ∉ shortlist ∧ r ≠ selfN2.node_id then
    (selfN2, shortlist ++ [r], true)
  else (selfN2, shortlist, found_new)

/-- One queried peer inside a lookup round (kademlia.py lines 107-120):
mark it queried, extend the path, call `find_node_rpc` on it if it is
registered, and ingest every returned id.
State: (net, self, shortlist, queried, path, found_new). -/
def kadQueryOne (key : Nat)
    (st : KadNet × KademliaNode × List Nat × List Nat × List Nat × Bool)
    (nid : Nat) : KadNet × KademliaNode × List Nat × List Nat × List Nat × Bool :=
  let (net, selfN, shortlist, queried, path, found_new) := st
  let queried2 := queried ++ [nid]
  let path2 := path ++ [nid]
  match net.getNode nid with
  | none => (net, selfN, shortlist, queried2, path2, found_new)
  | some target_node =>
    let (tn2, returned) := kadFindNodeRPC target_node key selfN.node_id
    let net2 := net.setObj nid tn2
    let (selfN2, shortlist2, found2) :=
      returned.foldl kadIngest (selfN, shortlist, found_new)
    (net2, selfN2, shortlist2, queried2, path2, found2)

/-- Closing lines of `KademliaNode.lookup` (kademlia.py lines 130-134):
the responsible node is the XOR-closest candidate, self included
(Python `min` keeps the first minimum). -/
def kadFinish (key : Nat) (net : KadNet) (selfN : KademliaNode)
    (shortlist : List Nat) (hops : Nat) (path : List Nat) :
    KadNet × KademliaNode × LookupResult Nat :=
  let responsible :=
    match shortlist ++ [selfN.node_id] with
    | [] => selfN.node_id
    | c :: cs => pyMinBy (fun nid => kdist nid key) c cs
  (net, selfN, ⟨key, responsible, hops, path, true⟩)

/-- The `while True` round-loop of `KademliaNode.lookup` (kademlia.py
lines 95-128).  With the `NetworkSimulator` of base.py the
`getattr(self.network, "per_hop_delay", 0)` at line 101 always yields the
default `0`, so the clock-advance branch (lines 101-104) is dead code and
has no counterpart here.  Each iteration increments `hops` and recursion
requires `hops ≤ 2m`, so fuel `2m + 3` makes the fuel-0 branch
unreachable from `kadLookup`. -/
def kadLookupGo (key : Nat) :
    Nat → KadNet → KademliaNode → List Nat → List Nat → List Nat → Nat →
    KadNet × KademliaNode × LookupResult Nat
  | 0, net, selfN, shortlist, _, path, hops => kadFinish key net selfN shortlist hops path
  | fuel + 1, net, selfN, shortlist, queried, path, hops =>
    let to_query := (shortlist.filter (fun x => x ∉ queried)).take selfN.alpha
    if to_query = [] then kadFinish key net selfN shortlist hops path
    else
      let hops2 := hops + 1
      let (net2, selfN2, shortlist2, queried2, path2, found_new) :=
        to_query.foldl (kadQueryOne key) (net, selfN, shortlist, queried, path, false)
      let shortlist3 := (sortByKey (fun nid => kdist nid key) shortlist2).take selfN2.k
      if ¬ found_new then kadFinish key net2 selfN2 shortlist3 hops2 path2
      else if hops2 > selfN2.id_bits * 2 then kadFinish key net2 selfN2 shortlist3 hops2 path2
      else kadLookupGo key fuel net2 selfN2 shortlist3 queried2 path2 hops2

/-- `KademliaNode.lookup` (kademlia.py lines 86-134).  The initiating
object is threaded by value (nothing reads its heap entry while the
lookup runs: the initiator is in `queried` from the start); callers write
it back. -/
def kadLookup (net : KadNet) (selfN : KademliaNode) (key : Nat) :
    KadNet × KademliaNode × LookupResult Nat :=
  let shortlist := kadFindClosestLocal selfN key selfN.k
  if shortlist = [] then
    (net, selfN, ⟨key, selfN.node_id, 0, [selfN.node_id], true⟩)
  else
    kadLookupGo key (2 * selfN.id_bits + 3) net selfN shortlist
      [selfN.node_id] [selfN.node_id] 0

/-- `KademliaNode.join` (kademlia.py lines 140-149): register first, then
bucket-update the bootstrap and run a self-lookup. -/
def kadJoin (net : KadNet) (selfN : KademliaNode) (bootstrap : Option Nat) :
    KadNet × KademliaNode × Nat :=
  let net1 := (net.setObj selfN.node_id selfN).register selfN.node_id
  match bootstrap with
  | none => (net1, selfN, 0)
  | some b =>
    let selfN2 := kadUpdateBucket selfN b
    let (net2, selfN3, r) := kadLookup net1 selfN2 selfN2.node_id
    ((net2.setObj selfN3.node_id selfN3), selfN3, r.hop_count)

/-- `KademliaNode.leave` (kademlia.py lines 151-153). -/
def kadLeave (net : KadNet) (selfId : Nat) : KadNet × Nat :=
  (net.unregister selfId, 0)

/-- `KademliaNode.stabilize` (kademlia.py lines 159-163): drop ids that
are no longer registered from every bucket. -/
def kadStabilize (net : KadNet) (selfId : Nat) : KadNet :=
  net.modifyObj selfId (fun n =>
    { n with buckets := n.buckets.map (fun b => b.filter (fun nid => (net.getNode nid).isSome)) })

/-- `KademliaNode.store` (kademlia.py lines 169-177): the heap object with
id `selfId` runs a lookup (whose bucket mutations are written back), then
writes into the responsible node's `data` if it is registered. -/
def kadStore (net : KadNet) (selfId : Nat) (key v : Nat) : KadNet × Bool :=
  match net.getObj selfId with
  | none => (net, false)
  | some n =>
    let (net1, n1, r) := kadLookup net n key
    let net2 := net1.setObj selfId n1
    if r.success then
      match net2.getNode r.responsible_node with
      | none => (net2, false)
      | some _ =>
        (net2.modifyObj r.responsible_node (fun t => { t with data := alistSet t.data key v }),
          true)
    else (net2, false)

/-- `KademliaNode.retrieve` (kademlia.py lines 179-186). -/
def kadRetrieve (net : KadNet) (selfId : Nat) (key : Nat) : KadNet × Option Nat :=
  match net.getObj selfId with
  | none => (net, none)
  | some n =>
    let (net1, n1, r) := kadLookup net n key
    let net2 := net1.setObj selfId n1
    if r.success then
      match net2.getNode r.responsible_node with
      | none => (net2, none)
      | some t => (net2, alistGet t.data key)
    else (net2, none)

/-- `KademliaNode.routing_table_size` (kademlia.py lines 188-189). -/
def kadRTS (n : KademliaNode) : Nat :=
  (n.buckets.map List.length).sum

/-! ## Pastry (`pastry.py`) -/

/-- `PastryNode` state (pastry.py lines 23-36).  `base` and `num_digits`
are the derived constants stored at construction. -/
structure PastryNode where
  node_id : Nat
  id_bits : Nat
  b : Nat
  base : Nat
  num_digits : Nat
  leaf_size : Nat
  routing_table : List (List (Option Nat))
  leaf_set : List Nat
  data : List (Nat × Nat)
deriving Repr, DecidableEq

/-- Pastry constructor (pastry.py lines 23-36). -/
def pastryInit (nid m bb lsz : Nat) : PastryNode :=
  { node_id := nid, id_bits := m, b := bb, base := 2 ^ bb
    num_digits := (m + bb - 1) / bb, leaf_size := lsz
    routing_table := List.replicate ((m + bb - 1) / bb) (List.replicate (2 ^ bb) none)
    leaf_set := [], data := [] }

abbrev PastryNet := Net Nat PastryNode

/-- `PastryNode._get_digit` (pastry.py lines 42-45). -/
def pGetDigit (n : PastryNode) (x pos : Nat) : Nat :=
  (x >>> ((n.num_digits - 1 - pos) * n.b)) &&& (n.base - 1)

/-- `PastryNode._shared_prefix_length` (pastry.py lines 47-51): index of
the first differing digit, or `num_digits`. -/
def pSharedPrefixLength (n : PastryNode) (a c : Nat) : Nat :=
  ((List.range n.num_digits).find? (fun i => pGetDigit n a i ≠ pGetDigit n c i)).getD
    n.num_digits

/-- Circular ring distance (`PastryNode._circular_distance`, pastry.py
lines 53-55), with explicit space size. -/
def circDist (space a c : Nat) : Nat :=
  let diff := if c ≤ a then a - c else c - a
  min diff (space - diff)

/-- `PastryNode._circular_distance` with the node's own `id_space`. -/
def pCirc (n : PastryNode) (a c : Nat) : Nat := circDist (2 ^ n.id_bits) a c

/-- `PastryNode._add_to_state` (pastry.py lines 61-82): ingest a live,
non-self id into the leaf set (stable re-sort by circular distance,
truncation at capacity) and into the first-comer routing-table cell. -/
def pastryAddToState (net : PastryNet) (n : PastryNode) (i : Nat) : PastryNode :=
  if i = n.node_id then n
  else if (net.getNode i).isNone then n
  else
    let n1 :=
      if i ∈ n.leaf_set then n
      else
        let ls := sortByKey (fun x => pCirc n n.node_id x) (n.leaf_set ++ [i])
        { n with leaf_set := if n.leaf_size < ls.length then ls.take n.leaf_size else ls }
    let plen := pSharedPrefixLength n1 n1.node_id i
    if plen < n1.num_digits then
      let digit := pGetDigit n1 i plen
      let row := n1.routing_table.getD plen []
      let replace :=
        match row.getD digit none with
        | none => true
        | some cur => (net.getNode cur).isNone
      if replace then
        { n1 with routing_table := n1.routing_table.set plen (row.set digit (some i)) }
      else n1
    else n1

/-- One candidate of the step-2 scan of `_route_next` (pastry.py lines
106-123): both the leaf-set loop and the routing-table loop run exactly
this update on the `(best, best_dist)` state. -/
def pScanStep (net : PastryNet) (space key : Nat) (st : Option Nat × Nat) (nid : Nat) :
    Option Nat × Nat :=
  if (net.getNode nid).isNone then st
  else
    let d := circDist space nid key
    match st with
    | (best, best_dist) =>
      if d < best_dist ∨ (d = best_dist ∧ ∃ bv, best = some bv ∧ nid < bv) then
        (some nid, d)
      else st

/-- `PastryNode._route_next` (pastry.py lines 88-125). -/
def pastryRouteNext (net : PastryNet) (n : PastryNode) (key : Nat) : Option Nat :=
  let space := 2 ^ n.id_bits
  let my_dist := circDist space n.node_id key
  if my_dist = 0 then none
  else
    let plen := pSharedPrefixLength n n.node_id key
    let step1 : Option Nat :=
      if plen < n.num_digits then
        match (n.routing_table.getD plen []).getD (pGetDigit n key plen) none with
        | some entry => if (net.getNode entry).isSome then some entry else none
        | none => none
      else none
    match step1 with
    | some entry => some entry
    | none =>
      let s1 := n.leaf_set.foldl (pScanStep net space key) (none, my_dist)
      let s2 := n.routing_table.foldl
        (fun st row => row.foldl
          (fun st e => match e with
            | none => st
            | some nid => pScanStep net space key st nid) st) s1
      s2.1

/-- The `while hops <= self.id_bits * 2` loop of `PastryNode.lookup`
(pastry.py lines 127-148); `m` is the initiator's `id_bits`.  Fuel
`2m + 2` makes the fuel-0 branch unreachable from `pastryLookup`. -/
def pastryLookupGo (net : PastryNet) (m : Nat) (key : Nat) :
    Nat → PastryNode → Nat → List Nat → List Nat → LookupResult Nat
  | 0, current, hops, path, _ => ⟨key, current.node_id, hops, path, false⟩
  | fuel + 1, current, hops, path, visited =>
    if hops ≤ 2 * m then
      match pastryRouteNext net current key with
      | none => ⟨key, current.node_id, hops, path, true⟩
      | some next_hop =>
        if next_hop ∈ visited then ⟨key, current.node_id, hops, path, true⟩
        else
          match net.getNode next_hop with
          | none => ⟨key, current.node_id, hops, path, true⟩
          | some next_node =>
            pastryLookupGo net m key fuel next_node (hops + 1) (path ++ [next_hop])
              (next_hop :: visited)
    else ⟨key, current.node_id, hops, path, false⟩

/-- `PastryNode.lookup` (pastry.py lines 127-148).  Pure: Pastry lookups
mutate no node. -/
def pastryLookup (net : PastryNet) (n : PastryNode) (key : Nat) : LookupResult Nat :=
  pastryLookupGo net n.id_bits key (2 * n.id_bits + 2) n 0 [n.node_id] [n.node_id]

/-- Ingest every leaf-set member and routing-table entry of `peer` into
`n` (the per-node body of the path-learning loop of `join`, pastry.py
lines 186-191, also used by `stabilize`, lines 251-256). -/
def pastryIngestPeer (net : PastryNet) (n : PastryNode) (peer : PastryNode) : PastryNode :=
  let n1 := peer.leaf_set.foldl (pastryAddToState net) n
  peer.routing_table.foldl
    (fun acc row => row.foldl
      (fun acc e => match e with
        | none => acc
        | some entry => pastryAddToState net acc entry) acc) n1

/-- `PastryNode.join` (pastry.py lines 154-201): register, copy the
bootstrap's state, self-lookup, learn from every node on the path, then
announce to the leaf-set neighbours (who each run `_add_to_state` on us).
Every node in this model is a `PastryNode`, so the `isinstance` guards of
lines 184 and 197 always pass. -/
def pastryJoin (net : PastryNet) (selfN : PastryNode) (bootstrap : Option Nat) :
    PastryNet × PastryNode × Nat :=
  let net1 := (net.setObj selfN.node_id selfN).register selfN.node_id
  match bootstrap with
  | none => (net1, selfN, 0)
  | some bid =>
    match net1.getNode bid with
    | none => (net1, selfN, 0)
    | some bnode =>
      let n1 := pastryAddToState net1 selfN bid
      let n2 := pastryIngestPeer net1 n1 bnode
      let r := pastryLookup net1 n2 n2.node_id
      let (n3, messages) :=
        r.path.foldl (fun (acc : PastryNode × Nat) nid =>
          if nid = acc.1.node_id then acc
          else
            match net1.getNode nid with
            | none => acc
            | some peer => (pastryIngestPeer net1 acc.1 peer, acc.2 + 1))
          (n2, 1 + r.hop_count)
      let (net2, messages2) :=
        n3.leaf_set.foldl (fun (acc : PastryNet × Nat) leaf_id =>
          match acc.1.getNode leaf_id with
          | none => acc
          | some _ =>
            (acc.1.modifyObj leaf_id (fun leafN => pastryAddToState acc.1 leafN n3.node_id),
              acc.2 + 1))
          (net1, messages)
      ((net2.setObj n3.node_id n3), n3, messages2)

/-- `PastryNode.leave` (pastry.py lines 203-229): scrub ourselves from
every live leaf neighbour, hand the data to the circularly closest leaf,
unregister. -/
def pastryLeave (net : PastryNet) (selfId : Nat) : PastryNet × Nat :=
  match net.getObj selfId with
  | none => (net, 0)
  | some n =>
    let (net1, messages) :=
      n.leaf_set.foldl (fun (acc : PastryNet × Nat) leaf_id =>
        match acc.1.getNode leaf_id with
        | none => acc
        | some _ =>
          (acc.1.modifyObj leaf_id (fun leafN =>
            { leafN with
                leaf_set := leafN.leaf_set.erase n.node_id,
                routing_table := leafN.routing_table.map (fun row =>
                  row.map (fun e => if e = some n.node_id then none else e)) }),
            acc.2 + 1))
        (net, 0)
    let net2 :=
      match n.leaf_set with
      | [] => net1
      | c :: cs =>
        let closest := pyMinBy (fun x => pCirc n n.node_id x) c cs
        match net1.getNode closest with
        | none => net1
        | some _ =>
          net1.modifyObj closest (fun (t : PastryNode) =>
            { t with data := n.data.foldl (fun acc (kv : Nat × Nat) => alistSet acc kv.1 kv.2) t.data })
    (net2.unregister selfId, messages)

/-- `PastryNode.stabilize` (pastry.py lines 235-256): purge dead leaf and
routing-table entries, then ingest the state of every live leaf
neighbour. -/
def pastryStabilize (net : PastryNet) (selfId : Nat) : PastryNet :=
  match net.getObj selfId with
  | none => net
  | some n =>
    let n1 :=
      { n with
          leaf_set := n.leaf_set.filter (fun nid => (net.getNode nid).isSome),
          routing_table := n.routing_table.map (fun (row : List (Option Nat)) =>
            row.map (fun e =>
              match e with
              | some x => if (net.getNode x).isNone then none else e
              | none => none)) }
    let n2 := n1.leaf_set.foldl (fun acc leaf_id =>
      match net.getNode leaf_id with
      | none => acc
      | some leaf => pastryIngestPeer net acc leaf) n1
    net.setObj selfId n2

/-- `PastryNode.store` (pastry.py lines 262-270). -/
def pastryStore (net : PastryNet) (selfId : Nat) (key v : Nat) : PastryNet × Bool :=
  match net.getObj selfId with
  | none => (net, false)
  | some n =>
    let r := pastryLookup net n key
    if r.success then
      match net.getNode r.responsible_node with
      | none => (net, false)
      | some _ =>
        (net.modifyObj r.responsible_node (fun t => { t with data := alistSet t.data key v }),
          true)
    else (net, false)

/-- `PastryNode.retrieve` (pastry.py lines 272-279): pure. -/
def pastryRetrieve (net : PastryNet) (selfId : Nat) (key : Nat) : Option Nat :=
  match net.getObj selfId with
  | none => none
  | some n =>
    let r := pastryLookup net n key
    if r.success then
      match net.getNode r.responsible_node with
      | none => none
      | some t => alistGet t.data key
    else none

/-- `PastryNode.routing_table_size` (pastry.py lines 281-285). -/
def pastryRTS (n : PastryNode) : Nat :=
  n.leaf_set.length + (n.routing_table.map (fun row => row.countP Option.isSome)).sum

/-! ## Concrete networks used as witnesses and counterexamples -/

/-- A Kademlia node with `m = 3`, `k = 2`, `α = 1` and given buckets. -/
def kadN3 (nid : Nat) (bs : List (List Nat)) : KademliaNode :=
  { node_id := nid, id_bits := 3, k := 2, alpha := 1, buckets := bs, data := [] }

/-- An 8-node Kademlia network over the 3-bit id space (`k = 2`, `α = 1`):
node `i` (for `1 ≤ i ≤ 6`) knows `i + 1`, node 7 knows 1, node 0 knows 1;
every bucket respects its XOR index.  Looking up key 7 from node 0 makes
every round discover a new shortlist entry (node 7 finally returns the
long-truncated id 1), so the round counter passes the `2m` cap. -/
def kadNet8 : KadNet :=
  { heap := [(0, kadN3 0 [[1], [], []]), (1, kadN3 1 [[], [2], []]),
             (2, kadN3 2 [[3], [], []]), (3, kadN3 3 [[], [], [4]]),
             (4, kadN3 4 [[5], [], []]), (5, kadN3 5 [[], [6], []]),
             (6, kadN3 6 [[7], [], []]), (7, kadN3 7 [[], [], [1]])],
    reg := [0, 1, 2, 3, 4, 5, 6, 7] }

/-- The initiator object of `kadNet8`. -/
def kadNet8Start : KademliaNode := kadN3 0 [[1], [], []]

/-- Chord node `i` of the forwarding chain: successor and all fingers
point at `i + 1` (`m = 4`). -/
def chainNode (i : Int) : ChordNode :=
  { node_id := i, id_bits := 4, successor := i + 1, predecessor := none,
    finger_table := [i + 1, i + 1, i + 1, i + 1], successor_list := [],
    successor_list_size := 3, data := [] }

/-- Ten chained Chord nodes `0, …, 9` over the 4-bit space.  A lookup of
key 15 from node 0 forwards one step per hop (`15 ∉ (i, i+1]` for
`i ≤ 8`) and exhausts the `2m = 8` hop cap. -/
def chainNet : ChordNet :=
  { heap := (List.range 10).map (fun i => ((i : Int), chainNode i)),
    reg := (List.range 10).map (fun i => (i : Int)) }

/-! ## C1: lookup cap semantics -/

theorem kadFinish_success (key : Nat) (net : KadNet) (selfN : KademliaNode)
    (shortlist : List Nat) (hops : Nat) (path : List Nat) :
    (kadFinish key net selfN shortlist hops path).2.2.success = true := by
  simp only [kadFinish]

theorem kadLookupGo_success (key : Nat) :
    ∀ (fuel : Nat) (net : KadNet) (selfN : KademliaNode)
      (shortlist queried path : List Nat) (hops : Nat),
      (kadLookupGo key fuel net selfN shortlist queried path hops).2.2.success = true := by
  intro fuel
  induction fuel with
  | zero => intro net selfN shortlist queried path hops; exact kadFinish_success ..
  | succ fuel ih =>
    intro net selfN shortlist queried path hops
    rw [kadLookupGo]
    dsimp only
    split
    all_goals first
      | exact kadFinish_success ..
      | exact ih ..
      | (split
         all_goals first
           | exact kadFinish_success ..
           | exact ih ..
           | (split
              all_goals first
                | exact kadFinish_success ..
                | exact ih ..))

theorem chordLookupGo_success_iff (net : ChordNet) (m : Nat) (key : Int) :
    ∀ (fuel : Nat) (current : ChordNode) (hops : Nat) (path : List Int),
      2 * m + 2 ≤ hops + fuel →
      ((chordLookupGo net m key fuel current hops path).success = false ↔
        2 * m < (chordLookupGo net m key fuel current hops path).hop_count) := by
  intro fuel
  induction fuel with
  | zero =>
    intro current hops path h
    refine ⟨fun _ => ?_, fun _ => rfl⟩
    show 2 * m < hops
    omega
  | succ fuel ih =>
    intro current hops path h
    rw [chordLookupGo]
    by_cases h1 : hops ≤ 2 * m
    · rw [if_pos h1]
      by_cases h2 : inHalfOpen key current.node_id current.successor = true
      · rw [if_pos h2]
        exact ⟨fun hs => (nomatch hs), fun hc => absurd (show 2 * m < hops from hc) (by omega)⟩
      · rw [if_neg h2]
        dsimp only
        by_cases h3 : chordCPF net current key = current.node_id
        · rw [if_pos h3]
          exact ⟨fun hs => (nomatch hs), fun hc => absurd (show 2 * m < hops from hc) (by omega)⟩
        · rw [if_neg h3]
          cases hv : net.getNode (chordCPF net current key) with
          | none =>
            exact ⟨fun hs => (nomatch hs), fun hc => absurd (show 2 * m < hops from hc) (by omega)⟩
          | some next_node =>
            exact ih next_node (hops + 1) (path ++ [chordCPF net current key]) (by omega)
    · rw [if_neg h1]
      refine ⟨fun _ => ?_, fun _ => rfl⟩
      show 2 * m < hops
      omega

theorem pastryLookupGo_success_iff (net : PastryNet) (m : Nat) (key : Nat) :
    ∀ (fuel : Nat) (current : PastryNode) (hops : Nat) (path visited : List Nat),
      2 * m + 2 ≤ hops + fuel →
      ((pastryLookupGo net m key fuel current hops path visited).success = false ↔
        2 * m < (pastryLookupGo net m key fuel current hops path visited).hop_count) := by
  intro fuel
  induction fuel with
  | zero =>
    intro current hops path visited h
    refine ⟨fun _ => ?_, fun _ => rfl⟩
    show 2 * m < hops
    omega
  | succ fuel ih =>
    intro current hops path visited h
    rw [pastryLookupGo]
    by_cases h1 : hops ≤ 2 * m
    · rw [if_pos h1]
      cases hr : pastryRouteNext net current key with
      | none =>
        exact ⟨fun hs => (nomatch hs), fun hc => absurd (show 2 * m < hops from hc) (by omega)⟩
      | some next_hop =>
        dsimp only
        by_cases h2 : next_hop ∈ visited
        · rw [if_pos h2]
          exact ⟨fun hs => (nomatch hs), fun hc => absurd (show 2 * m < hops from hc) (by omega)⟩
        · rw [if_neg h2]
          cases hv : net.getNode next_hop with
          | none =>
            exact ⟨fun hs => (nomatch hs), fun hc => absurd (show 2 * m < hops from hc) (by omega)⟩
          | some next_node =>
            exact ih next_node (hops + 1) (path ++ [next_hop]) (next_hop :: visited) (by omega)
    · rw [if_neg h1]
      refine ⟨fun _ => ?_, fun _ => rfl⟩
      show 2 * m < hops
      omega

/-- C1 (counterexample): in `kadNet8` (m = 3, cap `2m = 6`) the lookup of
key 7 from node 0 runs 7 rounds — past the cap — yet still returns
`success = true`, refuting "success=false exactly when the internal hop
cap of 2m hops/rounds is exceeded" for `KademliaNode`. -/
theorem kad_lookup_exceeds_cap_with_success :
    (kadLookup kadNet8 kadNet8Start 7).2.2.success = true ∧
    (kadLookup kadNet8 kadNet8Start 7).2.2.hop_count = 7 ∧
    2 * kadNet8Start.id_bits < (kadLookup kadNet8 kadNet8Start 7).2.2.hop_count := by
  refine ⟨?_, ?_, ?_⟩ <;> decide

/-- C1 (amended): lookups are total (the embedding is a total function:
no exceptions).  RING and PREFIX lookups return `success = false` exactly
when the `2m` hop cap is exceeded, and `success = true` for every lookup
that terminates within the cap; the XOR lookup always returns
`success = true` — its `2m` round cap merely stops the iteration, and the
returned `hop_count` may reach `2m + 1` (see the counterexample). -/
theorem lookup_cap_semantics :
    (∀ (net : ChordNet) (n : ChordNode) (key : Int),
        (chordLookup net n key).success = false ↔
          2 * n.id_bits < (chordLookup net n key).hop_count) ∧
    (∀ (net : PastryNet) (n : PastryNode) (key : Nat),
        (pastryLookup net n key).success = false ↔
          2 * n.id_bits < (pastryLookup net n key).hop_count) ∧
    (∀ (net : KadNet) (n : KademliaNode) (key : Nat),
        (kadLookup net n key).2.2.success = true) := by
  refine ⟨fun net n key => ?_, fun net n key => ?_, fun net n key => ?_⟩
  · exact chordLookupGo_success_iff net n.id_bits key (2 * n.id_bits + 2) n 0 [n.node_id]
      (by omega)
  · exact pastryLookupGo_success_iff net n.id_bits key (2 * n.id_bits + 2) n 0 [n.node_id]
      [n.node_id] (by omega)
  · rw [kadLookup]
    split
    · rfl
    · exact kadLookupGo_success key ..

/-! ## C8: the failure sentinel of Chord lookups -/

/-- Both failure exits of the Chord loop carry the sentinel `-1`. -/
theorem chordLookupGo_fail_sentinel (net : ChordNet) (m : Nat) (key : Int) :
    ∀ (fuel : Nat) (current : ChordNode) (hops : Nat) (path : List Int),
      (chordLookupGo net m key fuel current hops path).success = false →
      (chordLookupGo net m key fuel current hops path).responsible_node = -1 := by
  intro fuel
  induction fuel with
  | zero => intro current hops path _; rfl
  | succ fuel ih =>
    intro current hops path hs
    rw [chordLookupGo] at hs ⊢
    by_cases h1 : hops ≤ 2 * m
    · rw [if_pos h1] at hs ⊢
      by_cases h2 : inHalfOpen key current.node_id current.successor = true
      · rw [if_pos h2] at hs; exact (nomatch hs)
      · rw [if_neg h2] at hs ⊢
        dsimp only at hs ⊢
        by_cases h3 : chordCPF net current key = current.node_id
        · rw [if_pos h3] at hs; exact (nomatch hs)
        · rw [if_neg h3] at hs ⊢
          revert hs
          cases hv : net.getNode (chordCPF net current key) with
          | none => intro hs; exact (nomatch hs)
          | some next_node =>
            intro hs
            exact ih next_node (hops + 1) (path ++ [chordCPF net current key]) hs
    · rw [if_neg h1]

/-- C8: a failed `ChordNode.lookup` reports `responsible_node = -1`, a
negative sentinel that lies outside the identifier space `[0, 2^m)`. -/
theorem chord_failed_lookup_sentinel (net : ChordNet) (n : ChordNode) (key : Int)
    (hfail : (chordLookup net n key).success = false) :
    (chordLookup net n key).responsible_node = -1 ∧
    (chordLookup net n key).responsible_node < 0 := by
  have h2 : (chordLookup net n key).responsible_node = -1 :=
    chordLookupGo_fail_sentinel net n.id_bits key (2 * n.id_bits + 2) n 0 [n.node_id] hfail
  exact ⟨h2, by rw [h2]; decide⟩

/-- C8 (witness): in `chainNet` the lookup of key 15 from node 0 fails
(9 hops > cap 8) and indeed returns the sentinel `-1`. -/
theorem chord_failed_lookup_sentinel_holds :
    (chordLookup chainNet (chainNode 0) 15).success = false ∧
    ((chordLookup chainNet (chainNode 0) 15).responsible_node = -1 ∧
      (chordLookup chainNet (chainNode 0) 15).responsible_node < 0) :=
  ⟨by decide, chord_failed_lookup_sentinel chainNet (chainNode 0) 15 (by decide)⟩

/-! ## C10: Pastry lookup paths never repeat a node -/

/-- Loop invariant: the accumulated path has no duplicates and sits
inside the visited set, and every exit preserves the path. -/
theorem pastryLookupGo_nodup (net : PastryNet) (m : Nat) (key : Nat) :
    ∀ (fuel : Nat) (current : PastryNode) (hops : Nat) (path visited : List Nat),
      path.Nodup → (∀ x ∈ path, x ∈ visited) →
      (pastryLookupGo net m key fuel current hops path visited).path.Nodup := by
  intro fuel
  induction fuel with
  | zero => intro current hops path visited hnd _; exact hnd
  | succ fuel ih =>
    intro current hops path visited hnd hsub
    rw [pastryLookupGo]
    by_cases h1 : hops ≤ 2 * m
    · rw [if_pos h1]
      cases hr : pastryRouteNext net current key with
      | none => exact hnd
      | some next_hop =>
        dsimp only
        by_cases h2 : next_hop ∈ visited
        · rw [if_pos h2]; exact hnd
        · rw [if_neg h2]
          cases hv : net.getNode next_hop with
          | none => exact hnd
          | some next_node =>
            refine ih next_node (hops + 1) (path ++ [next_hop]) (next_hop :: visited) ?_ ?_
            · refine List.Nodup.append hnd (List.nodup_singleton next_hop) ?_
              intro a ha hb
              rw [List.mem_singleton] at hb
              exact h2 (hb ▸ hsub a ha)
            · intro x hx
              rcases List.mem_append.mp hx with hx | hx
              · exact List.mem_cons_of_mem _ (hsub x hx)
              · rw [List.mem_singleton] at hx
                exact hx ▸ List.mem_cons_self _ _
    · rw [if_neg h1]; exact hnd

/-- C10: every `PastryNode.lookup` result has a duplicate-free path —
routing stops as soon as the chosen next hop was already visited. -/
theorem pastry_lookup_path_nodup (net : PastryNet) (n : PastryNode) (key : Nat) :
    (pastryLookup net n key).path.Nodup :=
  pastryLookupGo_nodup net n.id_bits key (2 * n.id_bits + 2) n 0 [n.node_id] [n.node_id]
    (List.nodup_singleton _) (fun x hx => hx)

/-! ## C9: a failed store writes no data -/

theorem alistGet_set_self {κ α : Type} [DecidableEq κ] (l : List (κ × α)) (k : κ) (v : α) :
    alistGet (alistSet l k v) k = some v := by
  induction l with
  | nil => simp [alistGet, alistSet]
  | cons hd tl ih =>
    obtain ⟨k2, w⟩ := hd
    by_cases h : k2 = k
    · simp [alistSet, alistGet, h]
    · simp [alistSet, alistGet, h, ih]

theorem alistGet_set_other {κ α : Type} [DecidableEq κ] (l : List (κ × α)) (k i : κ) (v : α)
    (hne : k ≠ i) : alistGet (alistSet l k v) i = alistGet l i := by
  induction l with
  | nil => simp [alistGet, alistSet, hne]
  | cons hd tl ih =>
    obtain ⟨k2, w⟩ := hd
    by_cases h : k2 = k
    · subst h; simp [alistSet, alistGet, hne]
    · by_cases h2 : k2 = i
      · subst h2; simp [alistSet, alistGet, h, Ne.symm hne]
      · simp [alistSet, alistGet, h, h2, ih]

/-- The data view of a network: each heap object's key-value dict. -/
theorem getObj_setObj_self {κ ν : Type} [DecidableEq κ] (net : Net κ ν) (i : κ) (n : ν) :
    (net.setObj i n).getObj i = some n := alistGet_set_self ..

theorem getObj_setObj_other {κ ν : Type} [DecidableEq κ] (net : Net κ ν) (i j : κ) (n : ν)
    (hne : i ≠ j) : (net.setObj i n).getObj j = net.getObj j := alistGet_set_other _ _ _ _ hne

theorem getNode_getObj {κ ν : Type} [DecidableEq κ] (net : Net κ ν) (i : κ) (n : ν)
    (h : net.getNode i = some n) : net.getObj i = some n := by
  rw [Net.getNode] at h
  split at h
  · exact h
  · exact (nomatch h)

/-- `_update_bucket` never touches `data`. -/
theorem kadUpdateBucket_data (n : KademliaNode) (i : Nat) :
    (kadUpdateBucket n i).data = n.data := by
  rw [kadUpdateBucket]; split <;> rfl

/-- `find_node_rpc` never touches the peer's `data`. -/
theorem kadFindNodeRPC_data (q : KademliaNode) (t qr : Nat) :
    (kadFindNodeRPC q t qr).1.data = q.data := kadUpdateBucket_data ..

/-- Ingesting returned ids never touches the initiator's `data`. -/
theorem kadIngest_fold_data (l : List Nat) :
    ∀ (st : KademliaNode × List Nat × Bool), (l.foldl kadIngest st).1.data = st.1.data := by
  induction l with
  | nil => intro st; rfl
  | cons r rs ih =>
    intro st
    rw [List.foldl_cons, ih]
    obtain ⟨selfN, shortlist, found⟩ := st
    rw [kadIngest]
    dsimp only
    split <;> exact kadUpdateBucket_data ..

/-- One queried peer preserves every heap object's `data` and the
initiator's `data`. -/
theorem kadQueryOne_data (key : Nat)
    (st : KadNet × KademliaNode × List Nat × List Nat × List Nat × Bool) (nid : Nat) :
    (∀ i, ((kadQueryOne key st nid).1.getObj i).map KademliaNode.data =
      (st.1.getObj i).map KademliaNode.data) ∧
    (kadQueryOne key st nid).2.1.data = st.2.1.data := by
  obtain ⟨net, selfN, shortlist, queried, path, found⟩ := st
  rw [kadQueryOne]
  dsimp only
  cases hv : net.getNode nid with
  | none => exact ⟨fun i => rfl, rfl⟩
  | some target_node =>
    dsimp only
    constructor
    · intro i
      by_cases h : nid = i
      · subst h
        rw [getObj_setObj_self, getNode_getObj net nid target_node hv]
        simp [kadFindNodeRPC_data]
      · rw [getObj_setObj_other _ _ _ _ h]
    · exact kadIngest_fold_data ..

/-- The query fold of one round preserves all `data`. -/
theorem kadQueryFold_data (key : Nat) (l : List Nat) :
    ∀ (st : KadNet × KademliaNode × List Nat × List Nat × List Nat × Bool),
      (∀ i, ((l.foldl (kadQueryOne key) st).1.getObj i).map KademliaNode.data =
        (st.1.getObj i).map KademliaNode.data) ∧
      (l.foldl (kadQueryOne key) st).2.1.data = st.2.1.data := by
  induction l with
  | nil => intro st; exact ⟨fun i => rfl, rfl⟩
  | cons nid rest ih =>
    intro st
    rw [List.foldl_cons]
    refine ⟨fun i => ?_, ?_⟩
    · rw [(ih (kadQueryOne key st nid)).1 i, (kadQueryOne_data key st nid).1 i]
    · rw [(ih (kadQueryOne key st nid)).2, (kadQueryOne_data key st nid).2]

/-- The whole round loop preserves all `data`. -/
theorem kadLookupGo_data (key : Nat) :
    ∀ (fuel : Nat) (net : KadNet) (selfN : KademliaNode)
      (shortlist queried path : List Nat) (hops : Nat),
      (∀ i, ((kadLookupGo key fuel net selfN shortlist queried path hops).1.getObj i).map
          KademliaNode.data = (net.getObj i).map KademliaNode.data) ∧
      (kadLookupGo key fuel net selfN shortlist queried path hops).2.1.data = selfN.data := by
  intro fuel
  induction fuel with
  | zero => intro net selfN shortlist queried path hops; exact ⟨fun i => rfl, rfl⟩
  | succ fuel ih =>
    intro net selfN shortlist queried path hops
    rw [kadLookupGo]
    dsimp only
    split
    · exact ⟨fun i => rfl, rfl⟩
    · have hq := kadQueryFold_data key
        ((shortlist.filter (fun x => x ∉ queried)).take selfN.alpha)
        (net, selfN, shortlist, queried, path, false)
      rcases hfold : (shortlist.filter (fun x => x ∉ queried)).take selfN.alpha |>.foldl
          (kadQueryOne key) (net, selfN, shortlist, queried, path, false) with
        ⟨net2, selfN2, shortlist2, queried2, path2, found2⟩
      rw [hfold] at hq
      dsimp only at hq ⊢
      split
      · exact hq
      · split
        · exact hq
        · refine ⟨fun i => ?_, ?_⟩
          · rw [(ih net2 selfN2 _ queried2 path2 (hops + 1)).1 i, hq.1 i]
          · rw [(ih net2 selfN2 _ queried2 path2 (hops + 1)).2, hq.2]

/-- `KademliaNode.lookup` preserves all `data` (it only touches buckets). -/
theorem kadLookup_data (net : KadNet) (selfN : KademliaNode) (key : Nat) :
    (∀ i, ((kadLookup net selfN key).1.getObj i).map KademliaNode.data =
      (net.getObj i).map KademliaNode.data) ∧
    (kadLookup net selfN key).2.1.data = selfN.data := by
  rw [kadLookup]
  split
  · exact ⟨fun i => rfl, rfl⟩
  · exact kadLookupGo_data ..

/-- C9: if `store(key, value)` returns `false`, no node's `data` map
changes.  For RING and PREFIX (whose lookups are pure) the failed store
leaves the network untouched; for XOR the lookup reorders buckets, but
every node's `data` is unchanged. -/
theorem store_false_writes_nothing :
    (∀ (net : ChordNet) (selfId key v : Int) (net2 : ChordNet),
        chordStore net selfId key v = (net2, false) → net2 = net) ∧
    (∀ (net : PastryNet) (selfId key v : Nat) (net2 : PastryNet),
        pastryStore net selfId key v = (net2, false) → net2 = net) ∧
    (∀ (net : KadNet) (selfId key v : Nat) (net2 : KadNet),
        kadStore net selfId key v = (net2, false) →
        ∀ i, (net2.getObj i).map KademliaNode.data = (net.getObj i).map KademliaNode.data) := by
  refine ⟨fun net selfId key v net2 h => ?_, fun net selfId key v net2 h => ?_,
    fun net selfId key v net2 h => ?_⟩
  · rw [chordStore] at h
    cases hobj : net.getObj selfId with
    | none => rw [hobj] at h; exact (congrArg Prod.fst h).symm
    | some n =>
      rw [hobj] at h
      dsimp only at h
      split at h
      · split at h
        · exact (congrArg Prod.fst h).symm
        · exact absurd (congrArg Prod.snd h) (by simp)
      · exact (congrArg Prod.fst h).symm
  · rw [pastryStore] at h
    cases hobj : net.getObj selfId with
    | none => rw [hobj] at h; exact (congrArg Prod.fst h).symm
    | some n =>
      rw [hobj] at h
      dsimp only at h
      split at h
      · split at h
        · exact (congrArg Prod.fst h).symm
        · exact absurd (congrArg Prod.snd h) (by simp)
      · exact (congrArg Prod.fst h).symm
  · intro i
    rw [kadStore] at h
    cases hobj : net.getObj selfId with
    | none =>
      rw [hobj] at h
      cases h
      rfl
    | some n =>
      rw [hobj] at h
      dsimp only at h
      have hd := kadLookup_data net n key
      rcases hlk : kadLookup net n key with ⟨net1, n1, r⟩
      rw [hlk] at h hd
      dsimp only at h hd ⊢
      have hset : ∀ j, (((net1.setObj selfId n1)).getObj j).map KademliaNode.data =
          (net.getObj j).map KademliaNode.data := by
        intro j
        by_cases hj : selfId = j
        · subst hj
          rw [getObj_setObj_self, hobj]
          simp [hd.2]
        · rw [getObj_setObj_other _ _ _ _ hj]
          exact hd.1 j
      split at h
      · split at h
        · cases h
          exact hset i
        · exact absurd (congrArg Prod.snd h) (by simp)
      · cases h
        exact hset i

/-- C9 (witness): in `chainNet` the store of key 15 from node 0 fails
(its lookup fails) and leaves the network exactly as it was. -/
theorem store_false_writes_nothing_holds :
    chordStore chainNet 0 15 42 = (chainNet, false) ∧ chainNet = chainNet :=
  ⟨by decide, (store_false_writes_nothing).1 chainNet 0 15 42 chainNet (by decide)⟩

/-! ## C2: join with an unregistered bootstrap -/

theorem getNode_of_not_reg {κ ν : Type} [DecidableEq κ] (net : Net κ ν) (i : κ)
    (h : i ∉ net.reg) : net.getNode i = none := by
  rw [Net.getNode, if_neg h]

theorem mem_register_self {κ ν : Type} [DecidableEq κ] (net : Net κ ν) (i : κ) :
    i ∈ (net.register i).reg := by
  rw [Net.register]
  dsimp only
  split
  · assumption
  · exact List.mem_cons_self ..

theorem not_mem_register {κ ν : Type} [DecidableEq κ] (net : Net κ ν) (i j : κ)
    (hne : j ≠ i) (hmem : j ∉ net.reg) : j ∉ (net.register i).reg := by
  rw [Net.register]
  dsimp only
  split
  · exact hmem
  · intro hc
    rcases List.mem_cons.mp hc with h | h
    · exact hne h
    · exact hmem h

theorem register_heap {κ ν : Type} [DecidableEq κ] (net : Net κ ν) (i : κ) :
    (net.register i).heap = net.heap := rfl

theorem setObj_reg {κ ν : Type} [DecidableEq κ] (net : Net κ ν) (i : κ) (n : ν) :
    (net.setObj i n).reg = net.reg := rfl

/-- Flattening `m` empty buckets with bucket `idx < m` set to `[b]`
yields `[b]`. -/
theorem flatten_replicate_set (b : Nat) :
    ∀ (m idx : Nat), idx < m →
      ((List.replicate m ([] : List Nat)).set idx [b]).flatten = [b] := by
  intro m
  induction m with
  | zero => intro idx h; omega
  | succ m ih =>
    intro idx h
    cases idx with
    | zero =>
      rw [List.replicate_succ]
      simp
    | succ idx =>
      rw [List.replicate_succ, List.set_cons_succ, List.flatten_cons, ih idx (by omega)]
      rfl

theorem take_singleton_pos {α : Type} (k : Nat) (x : α) (hk : 0 < k) :
    ([x] : List α).take k = [x] := by
  cases k with
  | zero => omega
  | succ k => simp


/-- A fresh node that knows exactly one unregistered peer `b` finishes
its self-lookup after one round: the only query finds nothing. -/
theorem kadLookup_fresh_dead (net : KadNet) (selfN : KademliaNode) (b : Nat)
    (hflat : selfN.buckets.flatten = [b]) (hk : 0 < selfN.k) (ha : 0 < selfN.alpha)
    (hbreg : b ∉ net.reg) (hbn : b ≠ selfN.node_id) :
    kadLookup net selfN selfN.node_id =
      (net, selfN, ⟨selfN.node_id, selfN.node_id, 1, [selfN.node_id, b], true⟩) := by
  have hfcl : kadFindClosestLocal selfN selfN.node_id selfN.k = [b] := by
    rw [kadFindClosestLocal, hflat]
    show (insertByKey (fun nid => kdist nid selfN.node_id) b []).take selfN.k = [b]
    rw [insertByKey]
    exact take_singleton_pos _ _ hk
  have hfil : ([b].filter (fun x => x ∉ [selfN.node_id])) = [b] := by
    simp [hbn]
  have hdb : kdist b selfN.node_id ≠ 0 := by
    rw [kdist]
    intro h
    exact hbn (Nat.xor_eq_zero.mp h)
  rw [kadLookup, hfcl]
  rw [if_neg (by simp)]
  rw [kadLookupGo]
  dsimp only
  rw [hfil, take_singleton_pos _ _ ha]
  rw [if_neg (by simp)]
  rw [List.foldl_cons, List.foldl_nil, kadQueryOne]
  dsimp only
  rw [getNode_of_not_reg net b hbreg]
  dsimp only
  rw [if_pos (by simp : ¬false = true)]
  have hst : List.take selfN.k (sortByKey (fun nid => kdist nid selfN.node_id) [b]) = [b] := by
    rw [show sortByKey (fun nid => kdist nid selfN.node_id) [b] = [b] from rfl]
    exact take_singleton_pos _ _ hk
  rw [hst, kadFinish]
  have hlt : kdist selfN.node_id selfN.node_id < kdist b selfN.node_id := by
    rw [kdist, Nat.xor_self]
    exact Nat.pos_of_ne_zero hdb
  have hmin : pyMinBy (fun nid => kdist nid selfN.node_id) b [selfN.node_id] = selfN.node_id := by
    rw [pyMinBy, List.foldl_cons, List.foldl_nil, if_pos hlt]
  simp [hmin]

theorem replicate_nil_getD (m i : Nat) :
    (List.replicate m ([] : List Nat)).getD i [] = [] := by
  rw [List.getD_eq_getElem?_getD]
  exact @List.getElem?_getD_replicate_default_eq _ [] m i

/-- C2 (amended): a join to an unregistered bootstrap id `b` still
registers the joining node.  The XOR overlay returns 1 (the single round
spent querying the dead bootstrap), not 0, under the stated constructor
constraints (`k ≥ 1`, `α ≥ 1`, bootstrap inside the id space); the PREFIX
overlay returns 0 as claimed, but the node is registered all the same. -/
theorem join_unregistered_bootstrap :
    (∀ (net : KadNet) (nid b m k a : Nat),
        b ∉ net.reg → b ≠ nid → 0 < k → 0 < a → kdist nid b < 2 ^ m →
        (kadJoin net (kadInit nid m k a) (some b)).2.2 = 1 ∧
        ((kadJoin net (kadInit nid m k a) (some b)).1.getNode nid).isSome = true) ∧
    (∀ (net : PastryNet) (n : PastryNode) (b : Nat),
        b ∉ net.reg → b ≠ n.node_id →
        (pastryJoin net n (some b)).2.2 = 0 ∧
        ((pastryJoin net n (some b)).1.getNode n.node_id).isSome = true) := by
  constructor
  · intro net nid b m k a hbreg hbnid hk ha hdist
    have hne0 : kdist nid b ≠ 0 := by
      rw [kdist]
      intro h
      exact hbnid (Nat.xor_eq_zero.mp h).symm
    have hidx : blog2 (kdist nid b) < m := by
      rw [blog2_eq_log2]
      exact (Nat.log2_lt hne0).mpr hdist
    have hupd : kadUpdateBucket (kadInit nid m k a) b =
        { kadInit nid m k a with
            buckets := (List.replicate m []).set (blog2 (kdist nid b)) [b] } := by
      simp only [kadUpdateBucket, kadInit, kadBucketIndex, kdist]
      rw [if_neg hbnid]
      rw [if_neg (show ¬(nid ^^^ b = 0) from hne0), replicate_nil_getD]
      rw [if_neg (by simp), if_pos (by simpa using hk)]
      rfl
    have hbreg1 : b ∉ ((net.setObj nid (kadInit nid m k a)).register nid).reg :=
      not_mem_register _ _ _ hbnid hbreg
    rw [kadJoin]
    simp only [show (kadInit nid m k a).node_id = nid from rfl]
    rw [hupd]
    set R : KademliaNode :=
      { kadInit nid m k a with
          buckets := (List.replicate m []).set (blog2 (kdist nid b)) [b] } with hR
    have hRflat : R.buckets.flatten = [b] := by
      rw [hR]
      exact flatten_replicate_set b m _ hidx
    have hRk : 0 < R.k := by rw [hR]; exact hk
    have hRa : 0 < R.alpha := by rw [hR]; exact ha
    have hRb : b ≠ R.node_id := by rw [hR]; exact hbnid
    have hlk := kadLookup_fresh_dead
      ((net.setObj nid (kadInit nid m k a)).register nid) R b hRflat hRk hRa hbreg1 hRb
    rw [hlk]
    dsimp only
    refine ⟨rfl, ?_⟩
    have hRid : R.node_id = nid := by rw [hR]; rfl
    rw [hRid, Net.getNode]
    rw [if_pos (show nid ∈ ((((net.setObj nid (kadInit nid m k a)).register nid)).setObj
      nid R).reg from mem_register_self ..)]
    rw [show ((((net.setObj nid (kadInit nid m k a)).register nid)).setObj nid R).heap =
      alistSet ((net.setObj nid (kadInit nid m k a)).register nid).heap nid R from rfl]
    rw [alistGet_set_self]
    rfl
  · intro net n b hbreg hbnid
    have hbreg1 : ((net.setObj n.node_id n).register n.node_id).getNode b = none :=
      getNode_of_not_reg _ _ (not_mem_register _ _ _ hbnid hbreg)
    rw [pastryJoin]
    dsimp only
    rw [hbreg1]
    refine ⟨rfl, ?_⟩
    rw [Net.getNode, if_pos (show n.node_id ∈ ((net.setObj n.node_id n).register
      n.node_id).reg from mem_register_self ..)]
    rw [show ((net.setObj n.node_id n).register n.node_id).heap =
      alistSet net.heap n.node_id n from rfl]
    rw [alistGet_set_self]
    rfl

/-- C2 (counterexample): joining an empty network with bootstrap id 5
(registered nowhere), the Kademlia node 0 (defaults `k = 8`, `α = 3`,
`m = 4`) gets `join = 1`, not 0, and ends up registered —
`get_node(node_id)` finds it. -/
theorem kad_join_dead_bootstrap_registers :
    (kadJoin { heap := [], reg := [] } (kadInit 0 4 8 3) (some 5)).2.2 = 1 ∧
    ((kadJoin { heap := [], reg := [] } (kadInit 0 4 8 3) (some 5)).1.getNode 0).isSome
      = true := by
  exact ⟨by decide, by decide⟩

/-- C2 (witness): the amended statement applied to a concrete Pastry node
joining an empty network through the unregistered bootstrap 9. -/
theorem join_unregistered_bootstrap_holds :
    (pastryJoin { heap := [], reg := [] } (pastryInit 3 4 2 8) (some 9)).2.2 = 0 ∧
    ((pastryJoin { heap := [], reg := [] } (pastryInit 3 4 2 8)
        (some 9)).1.getNode (pastryInit 3 4 2 8).node_id).isSome = true :=
  join_unregistered_bootstrap.2 { heap := [], reg := [] } (pastryInit 3 4 2 8) 9
    (by decide) (by decide)

/-! ## C3: the substrate has no virtual clock -/

/-- C3: `NetworkSimulator.__init__` (base.py line 32) accepts no
`per_hop_delay` parameter — `NetworkSimulator(per_hop_delay=0)`, as
written in tests/benchmark_kademlia_latency.py line 37, raises
`TypeError`; the class defines neither `virtual_time` nor
`advance_time` (base.py lines 24-46), so `KademliaNode.lookup` reads
`getattr(self.network, "per_hop_delay", 0) = 0` and never advances any
clock. -/
theorem networkSimulator_has_no_delay_param :
    "per_hop_delay" ∉ networkSimulatorInitParams ∧
    networkSimulatorInitParams = ["self"] := by
  exact ⟨by decide, rfl⟩

/-! ## C6: step 2 of `_route_next` is a lexicographic argmin -/

/-- The candidate pool of step 2 of `_route_next`: the leaf set followed
by every non-empty routing-table entry (liveness is checked per
candidate during the scan). -/
def pastryCandidates (n : PastryNode) : List Nat :=
  n.leaf_set ++ n.routing_table.flatten.filterMap id

/-- The entry-wise fold over one routing-table row is the scan over its
non-empty entries. -/
theorem pRowFold_eq (net : PastryNet) (space key : Nat) :
    ∀ (row : List (Option Nat)) (st : Option Nat × Nat),
      row.foldl (fun st e => match e with
        | none => st
        | some nid => pScanStep net space key st nid) st =
      (row.filterMap id).foldl (pScanStep net space key) st := by
  intro row
  induction row with
  | nil => intro st; rfl
  | cons e rest ih =>
    intro st
    cases e with
    | none => rw [List.foldl_cons, List.filterMap_cons]; exact ih st
    | some nid => rw [List.foldl_cons, List.filterMap_cons]; exact ih _

/-- The row-wise double fold over the routing table is the scan over the
flattened non-empty entries. -/
theorem pTableFold_eq (net : PastryNet) (space key : Nat) :
    ∀ (table : List (List (Option Nat))) (st : Option Nat × Nat),
      table.foldl (fun st row => row.foldl (fun st e => match e with
        | none => st
        | some nid => pScanStep net space key st nid) st) st =
      (table.flatten.filterMap id).foldl (pScanStep net space key) st := by
  intro table
  induction table with
  | nil => intro st; rfl
  | cons row rest ih =>
    intro st
    rw [List.foldl_cons, List.flatten_cons, List.filterMap_append, List.foldl_append,
      pRowFold_eq]
    exact ih _

/-- Invariant carried by the `(best, best_dist)` scan state after
processing `processed`, for initial distance `d0`. -/
def pScanInv (net : PastryNet) (space key d0 : Nat) (processed : List Nat)
    (st : Option Nat × Nat) : Prop :=
  (st.1 = none → st.2 = d0 ∧
    ∀ y ∈ processed, (net.getNode y).isSome = true → ¬ circDist space y key < d0) ∧
  (∀ x, st.1 = some x → (net.getNode x).isSome = true ∧ x ∈ processed ∧
    st.2 = circDist space x key ∧ st.2 < d0 ∧
    ∀ y ∈ processed, (net.getNode y).isSome = true →
      circDist space x key < circDist space y key ∨
        (circDist space x key = circDist space y key ∧ x ≤ y))

/-- One scan step preserves the invariant. -/
theorem pScanStep_inv (net : PastryNet) (space key d0 : Nat) (processed : List Nat)
    (st : Option Nat × Nat) (c : Nat) (hinv : pScanInv net space key d0 processed st) :
    pScanInv net space key d0 (processed ++ [c]) (pScanStep net space key st c) := by
  obtain ⟨hnone, hsome⟩ := hinv
  rw [pScanStep]
  by_cases hlive : (net.getNode c).isNone
  · rw [if_pos hlive]
    have hlive2 : ¬ (net.getNode c).isSome = true := by
      cases h : net.getNode c
      · simp
      · rw [h] at hlive; exact (nomatch hlive)
    constructor
    · intro h1
      refine ⟨(hnone h1).1, fun y hy hys => ?_⟩
      rcases List.mem_append.mp hy with hy | hy
      · exact (hnone h1).2 y hy hys
      · rw [List.mem_singleton] at hy
        exact absurd hys (hy ▸ hlive2)
    · intro x hx
      obtain ⟨ha, hb, hc, hd, he⟩ := hsome x hx
      refine ⟨ha, List.mem_append_left _ hb, hc, hd, fun y hy hys => ?_⟩
      rcases List.mem_append.mp hy with hy | hy
      · exact he y hy hys
      · rw [List.mem_singleton] at hy
        exact absurd hys (hy ▸ hlive2)
  · rw [if_neg hlive]
    have hlive2 : (net.getNode c).isSome = true := by
      cases h : net.getNode c
      · rw [h] at hlive; exact absurd rfl hlive
      · rfl
    obtain ⟨best, bd⟩ := st
    dsimp only
    by_cases hcond : circDist space c key < bd ∨
        (circDist space c key = bd ∧ ∃ bv, best = some bv ∧ c < bv)
    · rw [if_pos hcond]
      constructor
      · intro h1; exact (nomatch h1)
      · intro x hx
        rw [Option.some.injEq] at hx
        subst hx
        cases hbest : best with
        | none =>
          obtain ⟨hbd, hall⟩ := hnone hbest
          subst hbd
          rcases hcond with hlt | ⟨_, bv, hbv, _⟩
          · refine ⟨hlive2, List.mem_append_right _ (List.mem_singleton_self _), rfl, hlt,
              fun y hy hys => ?_⟩
            rcases List.mem_append.mp hy with hy | hy
            · have := hall y hy hys; omega
            · rw [List.mem_singleton] at hy; subst hy; right; exact ⟨rfl, le_refl _⟩
          · rw [hbest] at hbv; exact (nomatch hbv)
        | some xv =>
          obtain ⟨hxl, hxm, hxd, hxlt, hxmin⟩ := hsome xv hbest
          dsimp only at hxd
          refine ⟨hlive2, List.mem_append_right _ (List.mem_singleton_self _), rfl, ?_, ?_⟩
          · rcases hcond with hlt | ⟨heq, _⟩
            · omega
            · omega
          · intro y hy hys
            rcases List.mem_append.mp hy with hy | hy
            · have hx2 := hxmin y hy hys
              rcases hcond with hlt | ⟨heq, bv, hbv, hcb⟩
              · rcases hx2 with h2 | ⟨h2, h3⟩
                · left; omega
                · left; omega
              · rw [hbest, Option.some.injEq] at hbv
                subst hbv
                rcases hx2 with h2 | ⟨h2, h3⟩
                · left; omega
                · right; exact ⟨by omega, by omega⟩
            · rw [List.mem_singleton] at hy; subst hy; right; exact ⟨rfl, le_refl _⟩
    · rw [if_neg hcond]
      push_neg at hcond
      obtain ⟨hnotlt, hnottie⟩ := hcond
      constructor
      · intro h1
        dsimp only at h1
        subst h1
        obtain ⟨hbd, hall⟩ := hnone rfl
        refine ⟨hbd, fun y hy hys => ?_⟩
        rcases List.mem_append.mp hy with hy | hy
        · exact hall y hy hys
        · rw [List.mem_singleton] at hy; subst hy; omega
      · intro x hx
        dsimp only at hx
        obtain ⟨hxl, hxm, hxd, hxlt, hxmin⟩ := hsome x hx
        refine ⟨hxl, List.mem_append_left _ hxm, hxd, hxlt, fun y hy hys => ?_⟩
        rcases List.mem_append.mp hy with hy | hy
        · exact hxmin y hy hys
        · rw [List.mem_singleton] at hy
          subst hy
          dsimp only at hxd
          by_cases hco : circDist space y key = bd
          · right
            refine ⟨by omega, ?_⟩
            have := hnottie hco x hx
            omega
          · left; omega

/-- The scan fold preserves the invariant along any candidate list. -/
theorem pScanFold_inv (net : PastryNet) (space key d0 : Nat) :
    ∀ (l processed : List Nat) (st : Option Nat × Nat),
      pScanInv net space key d0 processed st →
      pScanInv net space key d0 (processed ++ l)
        (l.foldl (pScanStep net space key) st) := by
  intro l
  induction l with
  | nil => intro processed st h; simpa using h
  | cons c rest ih =>
    intro processed st h
    rw [List.foldl_cons]
    have h2 := ih (processed ++ [c]) (pScanStep net space key st c)
      (pScanStep_inv net space key d0 processed st c h)
    rw [List.append_assoc] at h2
    simpa using h2

/-- C6: when a PREFIX node is not at distance 0 from the key and the
prefix cell for the key is empty or dead, `_route_next` returns exactly
the live candidate (leaf set ∪ routing table) minimising
`(circular_distance(·, key), id)` lexicographically, and only when that
candidate is strictly closer than the node itself; it returns none iff
no live candidate beats the node, so it never returns a node at distance
`≥` the node's own. -/
theorem pastry_route_next_argmin (net : PastryNet) (n : PastryNode) (key : Nat)
    (hmy : ¬ circDist (2 ^ n.id_bits) n.node_id key = 0)
    (hcell : ∀ e,
      (n.routing_table.getD (pSharedPrefixLength n n.node_id key) []).getD
        (pGetDigit n key (pSharedPrefixLength n n.node_id key)) none = some e →
      net.getNode e = none) :
    (∀ x, pastryRouteNext net n key = some x →
      x ∈ pastryCandidates n ∧ (net.getNode x).isSome = true ∧
      circDist (2 ^ n.id_bits) x key < circDist (2 ^ n.id_bits) n.node_id key ∧
      ∀ y ∈ pastryCandidates n, (net.getNode y).isSome = true →
        circDist (2 ^ n.id_bits) x key < circDist (2 ^ n.id_bits) y key ∨
          (circDist (2 ^ n.id_bits) x key = circDist (2 ^ n.id_bits) y key ∧ x ≤ y)) ∧
    (pastryRouteNext net n key = none ↔
      ∀ y ∈ pastryCandidates n, (net.getNode y).isSome = true →
        circDist (2 ^ n.id_bits) n.node_id key ≤ circDist (2 ^ n.id_bits) y key) := by
  have hfold : ∀ st : Option Nat × Nat,
      n.routing_table.foldl (fun st row => row.foldl (fun st e => match e with
        | none => st
        | some nid => pScanStep net (2 ^ n.id_bits) key st nid) st)
        (n.leaf_set.foldl (pScanStep net (2 ^ n.id_bits) key) st) =
      (pastryCandidates n).foldl (pScanStep net (2 ^ n.id_bits) key) st := by
    intro st
    rw [pTableFold_eq, pastryCandidates, List.foldl_append]
  have hroute : pastryRouteNext net n key =
      ((pastryCandidates n).foldl (pScanStep net (2 ^ n.id_bits) key)
        (none, circDist (2 ^ n.id_bits) n.node_id key)).1 := by
    rw [pastryRouteNext, if_neg hmy]
    dsimp only
    by_cases hp : pSharedPrefixLength n n.node_id key < n.num_digits
    · rw [if_pos hp]
      cases hc : (n.routing_table.getD (pSharedPrefixLength n n.node_id key) []).getD
          (pGetDigit n key (pSharedPrefixLength n n.node_id key)) none with
      | none => dsimp only; rw [hfold]
      | some e =>
        dsimp only
        rw [hcell e hc]
        rw [if_neg (by simp)]
        rw [hfold]
    · rw [if_neg hp]
      dsimp only
      rw [hfold]
  have hinit : pScanInv net (2 ^ n.id_bits) key (circDist (2 ^ n.id_bits) n.node_id key)
      [] (none, circDist (2 ^ n.id_bits) n.node_id key) :=
    ⟨fun _ => ⟨rfl, by simp⟩, fun x hx => (nomatch hx)⟩
  have hinv := pScanFold_inv net (2 ^ n.id_bits) key
    (circDist (2 ^ n.id_bits) n.node_id key) (pastryCandidates n) []
    (none, circDist (2 ^ n.id_bits) n.node_id key) hinit
  rw [List.nil_append] at hinv
  obtain ⟨hnone, hsome⟩ := hinv
  constructor
  · intro x hx
    rw [hroute] at hx
    obtain ⟨ha, hb, hc, hd, he⟩ := hsome x hx
    exact ⟨hb, ha, by omega, he⟩
  · rw [hroute]
    constructor
    · intro h1 y hy hys
      have := (hnone h1).2 y hy hys
      omega
    · intro hall
      cases hx : ((pastryCandidates n).foldl (pScanStep net (2 ^ n.id_bits) key)
          (none, circDist (2 ^ n.id_bits) n.node_id key)).1 with
      | none => rfl
      | some x =>
        obtain ⟨ha, hb, hc, hd, he⟩ := hsome x hx
        have := hall x hb ha
        omega

/-- A 16-id (`m = 4`) Pastry node with `b = 2` (4 digit values, 2 digit
positions) and the given routing table and leaf set. -/
def pN4 (nid : Nat) (rt : List (List (Option Nat))) (ls : List Nat) : PastryNode :=
  { node_id := nid, id_bits := 4, b := 2, base := 4, num_digits := 2, leaf_size := 8,
    routing_table := rt, leaf_set := ls, data := [] }

/-- An empty routing-table row for `pN4`. -/
def pEmptyRow : List (Option Nat) := [none, none, none, none]

/-- Node 0 with leaf set `[12]` and the single routing entry 1 in its
row-1 cell; its row-0 cell for key 5 (digit 1) is empty. -/
def c6node : PastryNode :=
  pN4 0 [pEmptyRow, [none, some 1, none, none]] [12]

/-- `c6node` plus live nodes 1 and 12. -/
def c6net : PastryNet :=
  { heap := [(0, c6node), (1, pN4 1 [pEmptyRow, pEmptyRow] []),
             (12, pN4 12 [pEmptyRow, pEmptyRow] [])],
    reg := [0, 1, 12] }

/-- C6 (witness): a concrete 16-id PREFIX node (`b = 2`) whose prefix
cell for key 5 is empty routes to the live table entry 1 (distance 4),
the lexicographic minimum among the live candidates `{12, 1}`. -/
theorem pastry_route_next_argmin_holds :
    pastryRouteNext c6net c6node 5 = some 1 ∧
    (1 ∈ pastryCandidates c6node ∧ (c6net.getNode 1).isSome = true ∧
      circDist (2 ^ c6node.id_bits) 1 5 < circDist (2 ^ c6node.id_bits) c6node.node_id 5 ∧
      ∀ y ∈ pastryCandidates c6node, (c6net.getNode y).isSome = true →
        circDist (2 ^ c6node.id_bits) 1 5 < circDist (2 ^ c6node.id_bits) y 5 ∨
          (circDist (2 ^ c6node.id_bits) 1 5 = circDist (2 ^ c6node.id_bits) y 5 ∧ 1 ≤ y)) :=
  ⟨by decide,
    (pastry_route_next_argmin c6net c6node 5 (by decide) (by decide)).1 1 (by decide)⟩

/-! ## C7: deterministic id and key generators (base.py lines 106-127)

The SHA-1 digest of `f"node-{seed}-{i}"` (resp. `f"key-{seed}-{i}"`) is an
external library call; it is modelled as an uninterpreted function
`H : Nat → Nat → Nat` of `(seed, i)`.  The accumulating Python `set`
becomes a duplicate-free list (`pyInsert`), `sorted(...)` becomes the
stable ascending sort `sortByKey id`, and the unbounded
`while len < count` loop takes a fuel argument: the loop terminates only
when the hash sequence supplies `count` distinct residues, which no
theorem about SHA-1 guarantees, so the list properties are stated for
terminating runs (`= some l`).  Purity is inherent: the embedding is a
mathematical function of `(count, m, seed)`. -/

/-- `set.add`: append a residue unless it is already present. -/
def pyInsert (x : Nat) (l : List Nat) : List Nat :=
  if x ∈ l then l else l ++ [x]

/-- The `while len(ids) < count` accumulation loop shared by
`generate_node_ids` and `generate_keys` (base.py lines 109-114/121-126). -/
def genLoop (H : Nat → Nat) (count space : Nat) :
    Nat → Nat → List Nat → Option (List Nat)
  | 0, _, acc => if count ≤ acc.length then some acc else none
  | fuel + 1, i, acc =>
    if count ≤ acc.length then some acc
    else genLoop H count space fuel (i + 1) (pyInsert (H i % space) acc)

/-- `generate_node_ids(count, id_bits, seed)` (base.py lines 106-115):
`sorted(ids)[:count]` of the accumulated set. -/
def generateNodeIds (H : Nat → Nat → Nat) (fuel count idBits seed : Nat) :
    Option (List Nat) :=
  (genLoop (H seed) count (2 ^ idBits) fuel 0 []).map
    (fun s => (sortByKey (fun x => x) s).take count)

/-- `generate_keys(count, id_bits, seed)` (base.py lines 118-127): the
same loop over the `"key-"`-prefixed hashes. -/
def generateKeys (H : Nat → Nat → Nat) (fuel count idBits seed : Nat) :
    Option (List Nat) :=
  (genLoop (H seed) count (2 ^ idBits) fuel 0 []).map
    (fun s => (sortByKey (fun x => x) s).take count)

theorem insertByKey_perm {α : Type} (f : α → Nat) (x : α) :
    ∀ (l : List α), (insertByKey f x l).Perm (x :: l) := by
  intro l
  induction l with
  | nil => rw [insertByKey]
  | cons y ys ih =>
    rw [insertByKey]
    split
    · exact (List.Perm.cons y ih).trans (List.Perm.swap x y ys)
    · exact List.Perm.refl _

theorem insertByKey_sorted {α : Type} (f : α → Nat) (x : α) :
    ∀ (l : List α), List.Sorted (fun a b => f a ≤ f b) l →
      List.Sorted (fun a b => f a ≤ f b) (insertByKey f x l) := by
  intro l
  induction l with
  | nil => intro _; simp [insertByKey]
  | cons y ys ih =>
    intro hs
    rw [List.sorted_cons] at hs
    obtain ⟨hy, hys⟩ := hs
    rw [insertByKey]
    split
    · rename_i hle
      rw [List.sorted_cons]
      refine ⟨fun b hb => ?_, ih hys⟩
      rcases List.mem_cons.mp ((insertByKey_perm f x ys).mem_iff.mp hb) with hb | hb
      · exact hb ▸ hle
      · exact hy b hb
    · rename_i hgt
      rw [List.sorted_cons]
      refine ⟨fun b hb => ?_, by rw [List.sorted_cons]; exact ⟨hy, hys⟩⟩
      rcases List.mem_cons.mp hb with hb | hb
      · subst hb; omega
      · exact le_trans (by omega) (hy b hb)

theorem sortFold_perm {α : Type} (f : α → Nat) :
    ∀ (l acc : List α),
      (l.foldl (fun acc x => insertByKey f x acc) acc).Perm (acc ++ l) := by
  intro l
  induction l with
  | nil => intro acc; simp
  | cons x xs ih =>
    intro acc
    rw [List.foldl_cons]
    refine (ih (insertByKey f x acc)).trans ?_
    refine (List.Perm.append_right xs (insertByKey_perm f x acc)).trans ?_
    exact List.perm_middle.symm

theorem sortFold_sorted {α : Type} (f : α → Nat) :
    ∀ (l acc : List α), List.Sorted (fun a b => f a ≤ f b) acc →
      List.Sorted (fun a b => f a ≤ f b)
        (l.foldl (fun acc x => insertByKey f x acc) acc) := by
  intro l
  induction l with
  | nil => intro acc h; exact h
  | cons x xs ih =>
    intro acc h
    rw [List.foldl_cons]
    exact ih _ (insertByKey_sorted f x acc h)

/-- `sortByKey` permutes its input. -/
theorem sortByKey_perm {α : Type} (f : α → Nat) (l : List α) :
    (sortByKey f l).Perm l := by
  have := sortFold_perm f l []
  rw [List.nil_append] at this
  exact this

/-- `sortByKey` sorts by its key. -/
theorem sortByKey_sorted {α : Type} (f : α → Nat) (l : List α) :
    List.Sorted (fun a b => f a ≤ f b) (sortByKey f l) :=
  sortFold_sorted f l [] (by simp)

/-- Loop invariant: a terminating run returns exactly `count` distinct
residues, all inside the id space. -/
theorem genLoop_spec (H : Nat → Nat) (count space : Nat) (hspace : 0 < space) :
    ∀ (fuel i : Nat) (acc : List Nat), acc.length ≤ count → acc.Nodup →
      (∀ x ∈ acc, x < space) →
      ∀ s, genLoop H count space fuel i acc = some s →
        s.length = count ∧ s.Nodup ∧ ∀ x ∈ s, x < space := by
  intro fuel
  induction fuel with
  | zero =>
    intro i acc hcard hnd hmem s hs
    rw [genLoop] at hs
    split at hs
    · cases hs
      exact ⟨by omega, hnd, hmem⟩
    · exact (nomatch hs)
  | succ fuel ih =>
    intro i acc hcard hnd hmem s hs
    rw [genLoop] at hs
    split at hs
    · cases hs
      exact ⟨by omega, hnd, hmem⟩
    · rename_i hlt
      rw [pyInsert] at hs
      by_cases hmem2 : H i % space ∈ acc
      · rw [if_pos hmem2] at hs
        exact ih (i + 1) acc hcard hnd hmem s hs
      · rw [if_neg hmem2] at hs
        refine ih (i + 1) (acc ++ [H i % space]) ?_ ?_ ?_ s hs
        · rw [List.length_append, List.length_singleton]; omega
        · exact List.Nodup.append hnd (List.nodup_singleton _)
            (by intro a ha hb; rw [List.mem_singleton] at hb; exact hmem2 (hb ▸ ha))
        · intro x hx
          rcases List.mem_append.mp hx with hx | hx
          · exact hmem x hx
          · rw [List.mem_singleton] at hx
            exact hx ▸ Nat.mod_lt _ hspace

/-- The sorted take of a terminating run: strictly ascending, `count`
entries, all in range. -/
theorem genResult_spec (H : Nat → Nat) (count space : Nat) (hspace : 0 < space)
    (fuel : Nat) (s : List Nat) (hs : genLoop H count space fuel 0 [] = some s) :
    List.Sorted (· < ·) ((sortByKey (fun x => x) s).take count) ∧
    ((sortByKey (fun x => x) s).take count).length = count ∧
    ∀ x ∈ (sortByKey (fun x => x) s).take count, x < space := by
  obtain ⟨hcard, hnd, hmem⟩ :=
    genLoop_spec H count space hspace fuel 0 [] (by simp) (by simp) (by simp) s hs
  have hperm := sortByKey_perm (fun x => x) s
  have hlen : (sortByKey (fun x => x) s).length = count := by
    rw [hperm.length_eq, hcard]
  have htake : (sortByKey (fun x => x) s).take count = sortByKey (fun x => x) s :=
    List.take_of_length_le (le_of_eq hlen)
  rw [htake]
  have hsortle : List.Sorted (· ≤ ·) (sortByKey (fun x => x) s) :=
    sortByKey_sorted (fun x => x) s
  refine ⟨hsortle.lt_of_le (hperm.nodup_iff.mpr hnd), hlen,
    fun x hx => hmem x (hperm.mem_iff.mp hx)⟩

/-- C7: for every hash function, fuel and arguments, a terminating run of
`generate_node_ids` or `generate_keys` returns a strictly ascending list
of exactly `count` ids, each in `[0, 2^m)`; both generators are pure
functions of their arguments (they are functions in the model), so two
invocations with equal arguments return equal lists. -/
theorem generators_sorted_distinct (H : Nat → Nat → Nat)
    (fuel count idBits seed : Nat) :
    (∀ l, generateNodeIds H fuel count idBits seed = some l →
      List.Sorted (· < ·) l ∧ l.length = count ∧ ∀ x ∈ l, x < 2 ^ idBits) ∧
    (∀ l, generateKeys H fuel count idBits seed = some l →
      List.Sorted (· < ·) l ∧ l.length = count ∧ ∀ x ∈ l, x < 2 ^ idBits) ∧
    generateNodeIds H fuel count idBits seed = generateNodeIds H fuel count idBits seed ∧
    generateKeys H fuel count idBits seed = generateKeys H fuel count idBits seed := by
  have hspace : 0 < 2 ^ idBits := Nat.pos_pow_of_pos idBits (by omega)
  refine ⟨?_, ?_, rfl, rfl⟩
  · intro l hl
    rw [generateNodeIds] at hl
    cases hgen : genLoop (H seed) count (2 ^ idBits) fuel 0 [] with
    | none => rw [hgen] at hl; exact (nomatch hl)
    | some s =>
      rw [hgen] at hl
      cases hl
      exact genResult_spec (H seed) count (2 ^ idBits) hspace fuel s hgen
  · intro l hl
    rw [generateKeys] at hl
    cases hgen : genLoop (H seed) count (2 ^ idBits) fuel 0 [] with
    | none => rw [hgen] at hl; exact (nomatch hl)
    | some s =>
      rw [hgen] at hl
      cases hl
      exact genResult_spec (H seed) count (2 ^ idBits) hspace fuel s hgen

/-- C7 (witness): with the identity hash, 5 units of fuel produce the
three ids `[0, 1, 2]` in the 2-bit space. -/
theorem generators_sorted_distinct_holds :
    generateNodeIds (fun _ i => i) 5 3 2 0 = some [0, 1, 2] ∧
    (List.Sorted (· < ·) [0, 1, 2] ∧ ([0, 1, 2] : List Nat).length = 3 ∧
      ∀ x ∈ ([0, 1, 2] : List Nat), x < 2 ^ 2) :=
  ⟨by decide,
    (generators_sorted_distinct (fun _ i => i) 5 3 2 0).1 [0, 1, 2] (by decide)⟩

/-! ## C5: routing-table size bounds over all reachable networks -/

theorem mem_alistSet {κ α : Type} [DecidableEq κ] (l : List (κ × α)) (k : κ) (v : α) :
    ∀ p ∈ alistSet l k v, p = (k, v) ∨ p ∈ l := by
  induction l with
  | nil =>
    intro p hp
    rw [alistSet, List.mem_singleton] at hp
    left; exact hp
  | cons hd tl ih =>
    intro p hp
    obtain ⟨k2, w⟩ := hd
    rw [alistSet] at hp
    by_cases hk : k2 = k
    · rw [if_pos hk] at hp
      rcases List.mem_cons.mp hp with hp | hp
      · left; rw [hp, hk]
      · right; exact List.mem_cons_of_mem _ hp
    · rw [if_neg hk] at hp
      rcases List.mem_cons.mp hp with hp | hp
      · right; exact hp ▸ List.mem_cons_self ..
      · rcases ih p hp with h | h
        · left; exact h
        · right; exact List.mem_cons_of_mem _ h

theorem alistGet_mem {κ α : Type} [DecidableEq κ] :
    ∀ (l : List (κ × α)) (k : κ) (v : α), alistGet l k = some v → (k, v) ∈ l := by
  intro l
  induction l with
  | nil => intro k v h; exact (nomatch h)
  | cons hd tl ih =>
    intro k v h
    obtain ⟨k2, w⟩ := hd
    rw [alistGet] at h
    split at h
    · cases h; rename_i hk; exact hk ▸ List.mem_cons_self ..
    · exact List.mem_cons_of_mem _ (ih k v h)

/-- A pointwise heap predicate survives `setObj` with a good value. -/
theorem heapPred_setObj {κ ν : Type} [DecidableEq κ] (P : ν → Prop) (net : Net κ ν)
    (i : κ) (n : ν) (hall : ∀ p ∈ net.heap, P p.2) (hn : P n) :
    ∀ p ∈ (net.setObj i n).heap, P p.2 := by
  intro p hp
  rcases mem_alistSet net.heap i n p hp with h | h
  · rw [h]; exact hn
  · exact hall p h

/-- A pointwise heap predicate survives `modifyObj` with a preserving
function. -/
theorem heapPred_modifyObj {κ ν : Type} [DecidableEq κ] (P : ν → Prop) (net : Net κ ν)
    (i : κ) (f : ν → ν) (hall : ∀ p ∈ net.heap, P p.2) (hf : ∀ x, P x → P (f x)) :
    ∀ p ∈ (net.modifyObj i f).heap, P p.2 := by
  rw [Net.modifyObj]
  cases hv : alistGet net.heap i with
  | none => exact hall
  | some n => exact heapPred_setObj P net i (f n) hall (hf n (hall (i, n) (alistGet_mem _ _ _ hv)))

theorem heapPred_getObj {κ ν : Type} [DecidableEq κ] (P : ν → Prop) (net : Net κ ν)
    (i : κ) (n : ν) (hall : ∀ p ∈ net.heap, P p.2) (h : net.getObj i = some n) : P n :=
  hall (i, n) (alistGet_mem _ _ _ h)

theorem heapPred_getNode {κ ν : Type} [DecidableEq κ] (P : ν → Prop) (net : Net κ ν)
    (i : κ) (n : ν) (hall : ∀ p ∈ net.heap, P p.2) (h : net.getNode i = some n) : P n :=
  heapPred_getObj P net i n hall (getNode_getObj net i n h)

theorem heapPred_register {κ ν : Type} [DecidableEq κ] (P : ν → Prop) (net : Net κ ν)
    (i : κ) (hall : ∀ p ∈ net.heap, P p.2) : ∀ p ∈ (net.register i).heap, P p.2 := hall

theorem heapPred_unregister {κ ν : Type} [DecidableEq κ] (P : ν → Prop) (net : Net κ ν)
    (i : κ) (hall : ∀ p ∈ net.heap, P p.2) : ∀ p ∈ (net.unregister i).heap, P p.2 := hall

/-- Construct a Chord node with the network-wide `id_bits` and run
`join` on it (exceptions leave the constructed object unregistered). -/
def chordJoinNew (net : ChordNet) (nid : Int) (m : Nat) (bs : Option Int) : ChordNet :=
  let net1 := net.setObj nid (chordInit nid m)
  match chordJoin net1 nid bs with
  | some r => r.1
  | none => net1

/-- The Chord networks reachable by driving the public API from an empty
simulator: construct-and-join, stabilize, leave, store (lookup and
retrieve mutate nothing). -/
inductive ChordReach (m : Nat) : ChordNet → Prop where
  | empty : ChordReach m ⟨[], []⟩
  | join (net : ChordNet) (nid : Int) (bs : Option Int) : ChordReach m net →
      net.getObj nid = none → ChordReach m (chordJoinNew net nid m bs)
  | stabilize (net : ChordNet) (i : Int) : ChordReach m net →
      ChordReach m (chordStabilize net i)
  | leave (net : ChordNet) (i : Int) : ChordReach m net →
      ChordReach m (chordLeave net i).1
  | store (net : ChordNet) (i key v : Int) : ChordReach m net →
      ChordReach m (chordStore net i key v).1

/-- The structural Chord invariant behind the size bound. -/
def ChordLen (n : ChordNode) : Prop := n.finger_table.length = n.id_bits

theorem chordLen_init (nid : Int) (m : Nat) : ChordLen (chordInit nid m) := by
  rw [ChordLen, chordInit]
  exact List.length_replicate ..

theorem chordLen_set (n : ChordNode) (i : Nat) (v : Int) (h : ChordLen n) :
    ChordLen { n with finger_table := n.finger_table.set i v } := by
  rw [ChordLen] at h ⊢
  rw [List.length_set]
  exact h

theorem chordJoinFingers_len (net : ChordNet) (bnode : ChordNode) :
    ∀ (l : List Nat) (n : ChordNode) (msgs : Nat), ChordLen n →
      ChordLen (chordJoinFingers net bnode (n, msgs) l).1 := by
  intro l
  induction l with
  | nil => intro n msgs h; exact h
  | cons i is ih =>
    intro n msgs h
    rw [chordJoinFingers]
    exact ih _ _ (chordLen_set n i _ h)

theorem chordJoin_len (net : ChordNet) (selfId : Int) (bs : Option Int)
    (hall : ∀ p ∈ net.heap, ChordLen p.2) :
    ∀ r, chordJoin net selfId bs = some r → ∀ p ∈ r.1.heap, ChordLen p.2 := by
  intro r hr
  rw [chordJoin] at hr
  cases hobj : net.getObj selfId with
  | none => rw [hobj] at hr; exact (nomatch hr)
  | some n =>
    rw [hobj] at hr
    have hn : ChordLen n := heapPred_getObj _ net selfId n hall hobj
    cases bs with
    | none =>
      cases hr
      exact heapPred_setObj _ net selfId _ hall
        (by rw [ChordLen]; exact List.length_replicate ..)
    | some b =>
      dsimp only at hr
      cases hb : net.getNode b with
      | none => rw [hb] at hr; exact (nomatch hr)
      | some bnode =>
        rw [hb] at hr
        dsimp only at hr
        cases hr
        exact heapPred_setObj _ net selfId _ hall
          (chordJoinFingers_len net bnode _ _ _ (chordLen_set n 0 _ hn))

theorem chordJoinNew_len (net : ChordNet) (nid : Int) (m : Nat) (bs : Option Int)
    (hall : ∀ p ∈ net.heap, ChordLen p.2) :
    ∀ p ∈ (chordJoinNew net nid m bs).heap, ChordLen p.2 := by
  rw [chordJoinNew]
  have h1 : ∀ p ∈ (net.setObj nid (chordInit nid m)).heap, ChordLen p.2 :=
    heapPred_setObj _ net nid _ hall (chordLen_init nid m)
  cases hj : chordJoin (net.setObj nid (chordInit nid m)) nid bs with
  | none => exact h1
  | some r => exact chordJoin_len _ nid bs h1 r hj

theorem chordFixFingers_len (selfId : Int) :
    ∀ (l : List Nat) (net : ChordNet), (∀ p ∈ net.heap, ChordLen p.2) →
      ∀ p ∈ (chordFixFingers selfId net l).heap, ChordLen p.2 := by
  intro l
  induction l with
  | nil => intro net hall; exact hall
  | cons i is ih =>
    intro net hall
    rw [chordFixFingers]
    refine ih _ ?_
    cases hobj : net.getObj selfId with
    | none => exact hall
    | some n =>
      dsimp only
      split
      · exact heapPred_setObj _ net selfId _ hall
          (chordLen_set n i _ (heapPred_getObj _ net selfId n hall hobj))
      · exact hall

theorem chordStabCont_len (net : ChordNet) (selfId : Int)
    (hall : ∀ p ∈ net.heap, ChordLen p.2) :
    ∀ p ∈ (chordStabCont net selfId).heap, ChordLen p.2 := by
  rw [chordStabCont]
  cases hobj : net.getObj selfId with
  | none => exact hall
  | some n =>
    dsimp only
    have h2 : ∀ (net2 : ChordNet), (∀ p ∈ net2.heap, ChordLen p.2) →
        ∀ p ∈ ((match net2.getObj selfId with
          | none => net2
          | some n3 => chordFixFingers selfId net2 (List.range n3.id_bits))).heap,
          ChordLen p.2 := by
      intro net2 h
      cases net2.getObj selfId with
      | none => exact h
      | some n3 => exact chordFixFingers_len selfId _ net2 h
    have h3 : ∀ (net3 : ChordNet), (∀ p ∈ net3.heap, ChordLen p.2) →
        ∀ p ∈ ((match net3.getObj selfId with
          | none => net3
          | some n4 => net3.setObj selfId
              { n4 with successor_list :=
                  chordWalkSucc net3 n4.node_id n4.successor_list_size n4.successor })).heap,
          ChordLen p.2 := by
      intro net3 h
      cases ho : net3.getObj selfId with
      | none => exact h
      | some n4 =>
        exact heapPred_setObj _ net3 selfId _ h (heapPred_getObj _ net3 selfId n4 h ho)
    have hstep2 : ∀ p ∈ ((match net.getNode n.successor with
        | none => net
        | some succ =>
          match succ.predecessor with
          | none => net
          | some x =>
            if x ≠ n.node_id ∧ (net.getNode x).isSome ∧ inOpen x n.node_id n.successor then
              net.setObj selfId
                { n with successor := x, finger_table := n.finger_table.set 0 x }
            else net)).heap, ChordLen p.2 := by
      cases net.getNode n.successor with
      | none => exact hall
      | some succ =>
        dsimp only
        cases succ.predecessor with
        | none => exact hall
        | some x =>
          dsimp only
          split
          · exact heapPred_setObj _ net selfId _ hall
              (chordLen_set n 0 x (heapPred_getObj _ net selfId n hall hobj))
          · exact hall
    refine h3 _ (h2 _ ?_)
    generalize hnet2 : (match net.getNode n.successor with
        | none => net
        | some succ =>
          match succ.predecessor with
          | none => net
          | some x =>
            if x ≠ n.node_id ∧ (net.getNode x).isSome ∧ inOpen x n.node_id n.successor then
              net.setObj selfId
                { n with successor := x, finger_table := n.finger_table.set 0 x }
            else net) = net2
    rw [hnet2] at hstep2
    cases net2.getObj selfId with
    | none => exact hstep2
    | some n2 =>
      dsimp only
      cases net2.getNode n2.successor with
      | none => exact hstep2
      | some succ_node =>
        exact heapPred_modifyObj _ net2 _ _ hstep2 (fun x hx => by
          rw [ChordLen] at hx ⊢
          split
          · exact hx
          · split
            · exact hx
            · exact hx)

theorem chordStabilize_len (net : ChordNet) (selfId : Int)
    (hall : ∀ p ∈ net.heap, ChordLen p.2) :
    ∀ p ∈ (chordStabilize net selfId).heap, ChordLen p.2 := by
  rw [chordStabilize]
  cases hobj : net.getObj selfId with
  | none => exact hall
  | some n =>
    dsimp only
    have hn : ChordLen n := heapPred_getObj _ net selfId n hall hobj
    cases net.getNode n.successor with
    | some _ => exact chordStabCont_len net selfId hall
    | none =>
      dsimp only
      cases chordFirstLive net n.successor_list with
      | some backup =>
        exact chordStabCont_len _ selfId
          (heapPred_setObj _ net selfId _ hall (chordLen_set n 0 backup hn))
      | none => exact heapPred_setObj _ net selfId _ hall hn

theorem chordLeave_len (net : ChordNet) (selfId : Int)
    (hall : ∀ p ∈ net.heap, ChordLen p.2) :
    ∀ p ∈ (chordLeave net selfId).1.heap, ChordLen p.2 := by
  rw [chordLeave]
  cases hobj : net.getObj selfId with
  | none => exact hall
  | some n =>
    dsimp only
    have h1 : ∀ (net0 : ChordNet), (∀ p ∈ net0.heap, ChordLen p.2) →
        ∀ p ∈ ((if n.successor ≠ n.node_id then
            match net0.getNode n.successor with
            | some _ =>
              (net0.modifyObj n.successor (fun s => { s with predecessor := n.predecessor }), 1)
            | none => (net0, 0)
          else (net0, 0)) : ChordNet × Nat).1.heap, ChordLen p.2 := by
      intro net0 h
      split
      · cases net0.getNode n.successor with
        | some _ =>
          exact heapPred_modifyObj _ net0 _ _ h (fun x hx => hx)
        | none => exact h
      · exact h
    have h2 : ∀ (net1 : ChordNet), (∀ p ∈ net1.heap, ChordLen p.2) →
        ∀ p ∈ ((match n.predecessor with
          | some p =>
            if p ≠ n.node_id then
              match net1.getNode p with
              | some _ =>
                (net1.modifyObj p (fun q =>
                  { q with successor := n.successor,
                           finger_table := q.finger_table.set 0 n.successor }), 1)
              | none => (net1, 0)
            else (net1, 0)
          | none => (net1, 0)) : ChordNet × Nat).1.heap, ChordLen p.2 := by
      intro net1 h
      cases n.predecessor with
      | none => exact h
      | some p =>
        dsimp only
        split
        · cases net1.getNode p with
          | some _ =>
            exact heapPred_modifyObj _ net1 _ _ h (fun x hx => chordLen_set x 0 _ hx)
          | none => exact h
        · exact h
    have h3 : ∀ (net2 : ChordNet), (∀ p ∈ net2.heap, ChordLen p.2) →
        ∀ p ∈ ((if n.successor ≠ n.node_id then
            match net2.getNode n.successor with
            | some _ =>
              net2.modifyObj n.successor (fun s =>
                { s with data := n.data.foldl (fun acc kv => alistSet acc kv.1 kv.2) s.data })
            | none => net2
          else net2)).heap, ChordLen p.2 := by
      intro net2 h
      split
      · cases net2.getNode n.successor with
        | some _ => exact heapPred_modifyObj _ net2 _ _ h (fun x hx => hx)
        | none => exact h
      · exact h
    exact heapPred_unregister _ _ _ (h3 _ (h2 _ (h1 net hall)))

theorem chordStore_len (net : ChordNet) (selfId key v : Int)
    (hall : ∀ p ∈ net.heap, ChordLen p.2) :
    ∀ p ∈ (chordStore net selfId key v).1.heap, ChordLen p.2 := by
  rw [chordStore]
  cases net.getObj selfId with
  | none => exact hall
  | some n =>
    dsimp only
    split
    · cases net.getNode (chordLookup net n key).responsible_node with
      | none => exact hall
      | some _ => exact heapPred_modifyObj _ net _ _ hall (fun x hx => hx)
    · exact hall

/-- Every reachable Chord network satisfies the length invariant. -/
theorem chordReach_len (m : Nat) (net : ChordNet) (h : ChordReach m net) :
    ∀ p ∈ net.heap, ChordLen p.2 := by
  induction h with
  | empty => intro p hp; exact (nomatch hp)
  | join net nid bs _ _ ih => exact chordJoinNew_len net nid m bs ih
  | stabilize net i _ ih => exact chordStabilize_len net i ih
  | leave net i _ ih => exact chordLeave_len net i ih
  | store net i key v _ ih => exact chordStore_len net i key v ih

/-- The Chord size bound from the length invariant. -/
theorem chordRTS_le (n : ChordNode) (h : ChordLen n) : chordRTS n ≤ n.id_bits := by
  rw [chordRTS, ChordLen] at *
  calc (n.finger_table.dedup.filter (fun x => x ≠ n.node_id)).length
      ≤ n.finger_table.dedup.length := List.length_filter_le ..
    _ ≤ n.finger_table.length := (List.dedup_sublist _).length_le
    _ = n.id_bits := h

theorem getD_mem_or_default {α : Type} (l : List α) (i : Nat) (d : α) :
    l.getD i d ∈ l ∨ l.getD i d = d := by
  rcases Nat.lt_or_ge i l.length with h | h
  · left
    rw [List.getD_eq_getElem l d h]
    exact l.getElem_mem h
  · right
    rw [List.getD_eq_default l d h]

/-- The structural Kademlia invariant behind the size bound: `m` buckets
of at most `k` entries each. -/
def KadWF (n : KademliaNode) : Prop :=
  n.buckets.length = n.id_bits ∧ ∀ b ∈ n.buckets, b.length ≤ n.k

theorem kadWF_init (nid m k a : Nat) : KadWF (kadInit nid m k a) := by
  refine ⟨List.length_replicate .., fun b hb => ?_⟩
  rw [List.eq_of_mem_replicate hb]
  exact Nat.zero_le _

theorem kadWF_buckets_set (n : KademliaNode) (idx : Nat) (b2 : List Nat) (h : KadWF n)
    (hb2 : b2.length ≤ n.k) : KadWF { n with buckets := n.buckets.set idx b2 } := by
  obtain ⟨hlen, hk⟩ := h
  constructor
  · show (n.buckets.set idx b2).length = n.id_bits
    rw [List.length_set]
    exact hlen
  · intro b hb
    show b.length ≤ n.k
    rcases List.mem_or_eq_of_mem_set hb with hb | hb
    · exact hk b hb
    · subst hb
      exact hb2

theorem kadWF_updateBucket (n : KademliaNode) (i : Nat) (h : KadWF n) :
    KadWF (kadUpdateBucket n i) := by
  rw [kadUpdateBucket]
  split
  · exact h
  · refine kadWF_buckets_set n _ _ h ?_
    have hbase : (n.buckets.getD (kadBucketIndex n i) []).length ≤ n.k := by
      rcases getD_mem_or_default n.buckets (kadBucketIndex n i) [] with h2 | h2
      · exact h.2 _ h2
      · rw [h2]; exact Nat.zero_le _
    split
    · rename_i hmem
      rw [List.length_append, List.length_singleton,
        List.length_erase_of_mem hmem]
      have hpos : 0 < (n.buckets.getD (kadBucketIndex n i) []).length :=
        List.length_pos_of_mem hmem
      omega
    · split
      · rename_i hlt
        rw [List.length_append, List.length_singleton]
        omega
      · exact hbase

theorem kadWF_rpc (q : KademliaNode) (t qr : Nat) (h : KadWF q) :
    KadWF (kadFindNodeRPC q t qr).1 := kadWF_updateBucket q qr h

theorem kadWF_ingest_fold (l : List Nat) :
    ∀ (st : KademliaNode × List Nat × Bool), KadWF st.1 → KadWF (l.foldl kadIngest st).1 := by
  induction l with
  | nil => intro st h; exact h
  | cons r rs ih =>
    intro st h
    rw [List.foldl_cons]
    refine ih _ ?_
    obtain ⟨selfN, shortlist, found⟩ := st
    rw [kadIngest]
    split
    · exact kadWF_updateBucket selfN r h
    · exact kadWF_updateBucket selfN r h

theorem kadWF_queryOne (key : Nat)
    (st : KadNet × KademliaNode × List Nat × List Nat × List Nat × Bool) (nid : Nat)
    (hall : ∀ p ∈ st.1.heap, KadWF p.2) (hself : KadWF st.2.1) :
    (∀ p ∈ (kadQueryOne key st nid).1.heap, KadWF p.2) ∧
      KadWF (kadQueryOne key st nid).2.1 := by
  obtain ⟨net, selfN, shortlist, queried, path, found⟩ := st
  rw [kadQueryOne]
  dsimp only at hall hself ⊢
  cases hv : net.getNode nid with
  | none => exact ⟨hall, hself⟩
  | some target_node =>
    dsimp only
    constructor
    · exact heapPred_setObj _ net nid _ hall
        (kadWF_rpc target_node key selfN.node_id
          (heapPred_getNode _ net nid target_node hall hv))
    · exact kadWF_ingest_fold _ _ hself

theorem kadWF_queryFold (key : Nat) (l : List Nat) :
    ∀ (st : KadNet × KademliaNode × List Nat × List Nat × List Nat × Bool),
      (∀ p ∈ st.1.heap, KadWF p.2) → KadWF st.2.1 →
      (∀ p ∈ (l.foldl (kadQueryOne key) st).1.heap, KadWF p.2) ∧
        KadWF (l.foldl (kadQueryOne key) st).2.1 := by
  induction l with
  | nil => intro st h1 h2; exact ⟨h1, h2⟩
  | cons nid rest ih =>
    intro st h1 h2
    rw [List.foldl_cons]
    obtain ⟨ha, hb⟩ := kadWF_queryOne key st nid h1 h2
    exact ih _ ha hb

theorem kadWF_lookupGo (key : Nat) :
    ∀ (fuel : Nat) (net : KadNet) (selfN : KademliaNode)
      (shortlist queried path : List Nat) (hops : Nat),
      (∀ p ∈ net.heap, KadWF p.2) → KadWF selfN →
      (∀ p ∈ (kadLookupGo key fuel net selfN shortlist queried path hops).1.heap, KadWF p.2) ∧
        KadWF (kadLookupGo key fuel net selfN shortlist queried path hops).2.1 := by
  intro fuel
  induction fuel with
  | zero => intro net selfN shortlist queried path hops h1 h2; exact ⟨h1, h2⟩
  | succ fuel ih =>
    intro net selfN shortlist queried path hops h1 h2
    rw [kadLookupGo]
    dsimp only
    split
    · exact ⟨h1, h2⟩
    · have hq := kadWF_queryFold key
        ((shortlist.filter (fun x => x ∉ queried)).take selfN.alpha)
        (net, selfN, shortlist, queried, path, false) h1 h2
      rcases hfold : (shortlist.filter (fun x => x ∉ queried)).take selfN.alpha |>.foldl
          (kadQueryOne key) (net, selfN, shortlist, queried, path, false) with
        ⟨net2, selfN2, shortlist2, queried2, path2, found2⟩
      rw [hfold] at hq
      dsimp only at hq ⊢
      split
      · exact hq
      · split
        · exact hq
        · exact ih net2 selfN2 _ queried2 path2 (hops + 1) hq.1 hq.2

theorem kadWF_lookup (net : KadNet) (selfN : KademliaNode) (key : Nat)
    (hall : ∀ p ∈ net.heap, KadWF p.2) (hself : KadWF selfN) :
    (∀ p ∈ (kadLookup net selfN key).1.heap, KadWF p.2) ∧
      KadWF (kadLookup net selfN key).2.1 := by
  rw [kadLookup]
  split
  · exact ⟨hall, hself⟩
  · exact kadWF_lookupGo key _ net selfN _ _ _ 0 hall hself

/-- Construct a Kademlia node with the network-wide parameters and run
`join` on it. -/
def kadJoinNew (net : KadNet) (nid m k a : Nat) (bs : Option Nat) : KadNet :=
  (kadJoin net (kadInit nid m k a) bs).1

/-- The Kademlia networks reachable by driving the public API from an
empty simulator. -/
inductive KadReach (m k a : Nat) : KadNet → Prop where
  | empty : KadReach m k a ⟨[], []⟩
  | join (net : KadNet) (nid : Nat) (bs : Option Nat) : KadReach m k a net →
      net.getObj nid = none → KadReach m k a (kadJoinNew net nid m k a bs)
  | stabilize (net : KadNet) (i : Nat) : KadReach m k a net →
      KadReach m k a (kadStabilize net i)
  | leave (net : KadNet) (i : Nat) : KadReach m k a net →
      KadReach m k a (kadLeave net i).1
  | store (net : KadNet) (i key v : Nat) : KadReach m k a net →
      KadReach m k a (kadStore net i key v).1

theorem kadJoinNew_wf (net : KadNet) (nid m k a : Nat) (bs : Option Nat)
    (hall : ∀ p ∈ net.heap, KadWF p.2) :
    ∀ p ∈ (kadJoinNew net nid m k a bs).heap, KadWF p.2 := by
  have h1 : ∀ p ∈ (((net.setObj (kadInit nid m k a).node_id
      (kadInit nid m k a)).register (kadInit nid m k a).node_id)).heap, KadWF p.2 :=
    heapPred_setObj _ net _ _ hall (kadWF_init nid m k a)
  cases bs with
  | none => exact h1
  | some b =>
    rw [kadJoinNew, kadJoin]
    dsimp only
    have h2 := kadWF_lookup _ (kadUpdateBucket (kadInit nid m k a) b)
      (kadUpdateBucket (kadInit nid m k a) b).node_id h1
      (kadWF_updateBucket _ b (kadWF_init nid m k a))
    rcases hlk : kadLookup ((net.setObj (kadInit nid m k a).node_id
        (kadInit nid m k a)).register (kadInit nid m k a).node_id)
        (kadUpdateBucket (kadInit nid m k a) b)
        (kadUpdateBucket (kadInit nid m k a) b).node_id with ⟨net2, selfN3, r⟩
    rw [hlk] at h2
    dsimp only at h2 ⊢
    exact heapPred_setObj _ net2 _ _ h2.1 h2.2

theorem kadStabilize_wf (net : KadNet) (i : Nat)
    (hall : ∀ p ∈ net.heap, KadWF p.2) :
    ∀ p ∈ (kadStabilize net i).heap, KadWF p.2 := by
  refine heapPred_modifyObj _ net _ _ hall (fun x hx => ?_)
  obtain ⟨hlen, hk⟩ := hx
  constructor
  · show (x.buckets.map _).length = x.id_bits
    rw [List.length_map]
    exact hlen
  · intro b hb
    show b.length ≤ x.k
    obtain ⟨b0, hb0, hbeq⟩ := List.mem_map.mp hb
    subst hbeq
    exact le_trans (List.length_filter_le ..) (hk b0 hb0)

theorem kadStore_wf (net : KadNet) (i key v : Nat)
    (hall : ∀ p ∈ net.heap, KadWF p.2) :
    ∀ p ∈ (kadStore net i key v).1.heap, KadWF p.2 := by
  rw [kadStore]
  cases hobj : net.getObj i with
  | none => exact hall
  | some n =>
    dsimp only
    have h2 := kadWF_lookup net n key hall (heapPred_getObj _ net i n hall hobj)
    rcases hlk : kadLookup net n key with ⟨net1, n1, r⟩
    rw [hlk] at h2
    dsimp only at h2 ⊢
    have h3 : ∀ p ∈ (net1.setObj i n1).heap, KadWF p.2 :=
      heapPred_setObj _ net1 _ _ h2.1 h2.2
    split
    · cases (net1.setObj i n1).getNode r.responsible_node with
      | none => exact h3
      | some _ => exact heapPred_modifyObj _ _ _ _ h3 (fun x hx => hx)
    · exact h3

/-- Every reachable Kademlia network satisfies the bucket invariant. -/
theorem kadReach_wf (m k a : Nat) (net : KadNet) (h : KadReach m k a net) :
    ∀ p ∈ net.heap, KadWF p.2 := by
  induction h with
  | empty => intro p hp; exact (nomatch hp)
  | join net nid bs _ _ ih => exact kadJoinNew_wf net nid m k a bs ih
  | stabilize net i _ ih => exact kadStabilize_wf net i ih
  | leave net i _ ih => exact heapPred_unregister _ _ _ ih
  | store net i key v _ ih => exact kadStore_wf net i key v ih

theorem sum_map_le {α : Type} (f : α → Nat) (k : Nat) :
    ∀ (l : List α), (∀ x ∈ l, f x ≤ k) → (l.map f).sum ≤ k * l.length := by
  intro l
  induction l with
  | nil => intro _; simp
  | cons b bs ih =>
    intro hk
    rw [List.map_cons, List.sum_cons, List.length_cons, Nat.mul_succ]
    have h1 : f b ≤ k := hk b (List.mem_cons_self ..)
    have h2 : (bs.map f).sum ≤ k * bs.length :=
      ih (fun c hc => hk c (List.mem_cons_of_mem _ hc))
    omega

/-- The Kademlia size bound from the bucket invariant. -/
theorem kadRTS_le (n : KademliaNode) (h : KadWF n) : kadRTS n ≤ n.k * n.id_bits := by
  obtain ⟨hlen, hk⟩ := h
  rw [kadRTS, ← hlen]
  exact sum_map_le List.length n.k n.buckets hk

/-- The structural Pastry invariant behind the size bound: a bounded
leaf set and a `num_digits × base` routing table. -/
def PastryWF (n : PastryNode) : Prop :=
  n.leaf_set.length ≤ n.leaf_size ∧ n.routing_table.length = n.num_digits ∧
  ∀ row ∈ n.routing_table, row.length = n.base

theorem pastryWF_init (nid m bb lsz : Nat) : PastryWF (pastryInit nid m bb lsz) := by
  refine ⟨Nat.zero_le _, List.length_replicate .., fun row hrow => ?_⟩
  rw [List.eq_of_mem_replicate hrow]
  exact List.length_replicate ..

/-- The leaf-set insertion step of `_add_to_state` keeps the leaf set
within capacity. -/
theorem pastryWF_leafStep (n : PastryNode) (i : Nat) (h : PastryWF n) :
    PastryWF (if i ∈ n.leaf_set then n else
      { n with leaf_set :=
          if n.leaf_size <
              (sortByKey (fun x => pCirc n n.node_id x) (n.leaf_set ++ [i])).length then
            (sortByKey (fun x => pCirc n n.node_id x) (n.leaf_set ++ [i])).take n.leaf_size
          else sortByKey (fun x => pCirc n n.node_id x) (n.leaf_set ++ [i]) }) := by
  obtain ⟨hleaf, hrows, hrow⟩ := h
  split
  · exact ⟨hleaf, hrows, hrow⟩
  · refine ⟨?_, hrows, hrow⟩
    show (if _ then _ else _ : List Nat).length ≤ n.leaf_size
    split
    · rw [List.length_take]
      omega
    · rename_i hle
      omega

/-- The routing-table step of `_add_to_state` keeps the table dimensions
(first-comer insertion rewrites one cell of one row). -/
theorem pastryWF_tableStep (net : PastryNet) (i : Nat) (n1 : PastryNode)
    (h : PastryWF n1) :
    PastryWF (
      if pSharedPrefixLength n1 n1.node_id i < n1.num_digits then
        if (match (n1.routing_table.getD (pSharedPrefixLength n1 n1.node_id i) []).getD
              (pGetDigit n1 i (pSharedPrefixLength n1 n1.node_id i)) none with
            | none => true
            | some cur => (net.getNode cur).isNone) = true then
          { n1 with routing_table :=
              (n1.routing_table.set (pSharedPrefixLength n1 n1.node_id i)
                ((n1.routing_table.getD (pSharedPrefixLength n1 n1.node_id i) []).set
                  (pGetDigit n1 i (pSharedPrefixLength n1 n1.node_id i)) (some i))) }
        else n1
      else n1) := by
  obtain ⟨hleaf, hrows, hrow⟩ := h
  split
  · split
    · rename_i hplen _
      refine ⟨hleaf, ?_, ?_⟩
      · show (n1.routing_table.set _ _).length = n1.num_digits
        rw [List.length_set]
        exact hrows
      · intro row hr
        show row.length = n1.base
        have hlt : pSharedPrefixLength n1 n1.node_id i < n1.routing_table.length := by
          omega
        rcases List.mem_or_eq_of_mem_set hr with hr | hr
        · exact hrow row hr
        · subst hr
          rw [List.length_set]
          refine hrow _ ?_
          rw [List.getD_eq_getElem n1.routing_table [] hlt]
          exact n1.routing_table.getElem_mem hlt
    · exact ⟨hleaf, hrows, hrow⟩
  · exact ⟨hleaf, hrows, hrow⟩

theorem pastryWF_addToState (net : PastryNet) (n : PastryNode) (i : Nat)
    (h : PastryWF n) : PastryWF (pastryAddToState net n i) := by
  rw [pastryAddToState]
  split
  · exact h
  · split
    · exact h
    · exact pastryWF_tableStep net i _ (pastryWF_leafStep n i h)

theorem pastryWF_addFold (net : PastryNet) (l : List Nat) :
    ∀ (n : PastryNode), PastryWF n → PastryWF (l.foldl (pastryAddToState net) n) := by
  induction l with
  | nil => intro n h; exact h
  | cons i is ih =>
    intro n h
    rw [List.foldl_cons]
    exact ih _ (pastryWF_addToState net n i h)

theorem pastryWF_ingestPeer (net : PastryNet) (n peer : PastryNode) (h : PastryWF n) :
    PastryWF (pastryIngestPeer net n peer) := by
  rw [pastryIngestPeer]
  have h1 := pastryWF_addFold net peer.leaf_set n h
  generalize hn1 : peer.leaf_set.foldl (pastryAddToState net) n = n1
  rw [hn1] at h1
  clear hn1 h
  induction peer.routing_table generalizing n1 with
  | nil => exact h1
  | cons row rest ih =>
    rw [List.foldl_cons]
    refine ih _ ?_
    clear ih
    induction row generalizing n1 with
    | nil => exact h1
    | cons e es ihr =>
      rw [List.foldl_cons]
      cases e with
      | none => exact ihr _ h1
      | some entry => exact ihr _ (pastryWF_addToState net n1 entry h1)

/-- Construct a Pastry node with the network-wide parameters and run
`join` on it. -/
def pastryJoinNew (net : PastryNet) (nid m bb lsz : Nat) (bs : Option Nat) : PastryNet :=
  (pastryJoin net (pastryInit nid m bb lsz) bs).1

/-- The Pastry networks reachable by driving the public API from an
empty simulator. -/
inductive PastryReach (m bb lsz : Nat) : PastryNet → Prop where
  | empty : PastryReach m bb lsz ⟨[], []⟩
  | join (net : PastryNet) (nid : Nat) (bs : Option Nat) : PastryReach m bb lsz net →
      net.getObj nid = none → PastryReach m bb lsz (pastryJoinNew net nid m bb lsz bs)
  | stabilize (net : PastryNet) (i : Nat) : PastryReach m bb lsz net →
      PastryReach m bb lsz (pastryStabilize net i)
  | leave (net : PastryNet) (i : Nat) : PastryReach m bb lsz net →
      PastryReach m bb lsz (pastryLeave net i).1
  | store (net : PastryNet) (i key v : Nat) : PastryReach m bb lsz net →
      PastryReach m bb lsz (pastryStore net i key v).1

theorem pastryWF_join (net : PastryNet) (selfN : PastryNode) (bs : Option Nat)
    (hall : ∀ p ∈ net.heap, PastryWF p.2) (hself : PastryWF selfN) :
    ∀ p ∈ (pastryJoin net selfN bs).1.heap, PastryWF p.2 := by
  have h1 : ∀ p ∈ ((net.setObj selfN.node_id selfN).register selfN.node_id).heap,
      PastryWF p.2 := heapPred_setObj _ net _ _ hall hself
  cases bs with
  | none => exact h1
  | some bid =>
    rw [pastryJoin]
    dsimp only
    set net1 : PastryNet := (net.setObj selfN.node_id selfN).register selfN.node_id with hnet1
    cases net1.getNode bid with
    | none => exact h1
    | some bnode =>
      dsimp only
      set n2 : PastryNode :=
        pastryIngestPeer net1 (pastryAddToState net1 selfN bid) bnode with hn2
      have h2 : PastryWF n2 := by
        rw [hn2]
        exact pastryWF_ingestPeer _ _ _ (pastryWF_addToState _ _ _ hself)
      have h3 : ∀ (l : List Nat) (acc : PastryNode × Nat), PastryWF acc.1 →
          PastryWF (l.foldl (fun (acc : PastryNode × Nat) nid =>
            if nid = acc.1.node_id then acc
            else
              match net1.getNode nid with
              | none => acc
              | some peer => (pastryIngestPeer net1 acc.1 peer, acc.2 + 1)) acc).1 := by
        intro l
        induction l with
        | nil => intro acc h; exact h
        | cons nid rest ih =>
          intro acc h
          rw [List.foldl_cons]
          refine ih _ ?_
          split
          · exact h
          · cases net1.getNode nid with
            | none => exact h
            | some peer => exact pastryWF_ingestPeer _ _ _ h
      have h4 : ∀ (tgt : Nat) (l : List Nat) (acc : PastryNet × Nat),
          (∀ p ∈ acc.1.heap, PastryWF p.2) →
          ∀ p ∈ (l.foldl (fun (acc : PastryNet × Nat) leaf_id =>
            match acc.1.getNode leaf_id with
            | none => acc
            | some _ =>
              (acc.1.modifyObj leaf_id (fun leafN => pastryAddToState acc.1 leafN tgt),
                acc.2 + 1)) acc).1.heap, PastryWF p.2 := by
        intro tgt l
        induction l with
        | nil => intro acc h; exact h
        | cons leaf_id rest ih =>
          intro acc h
          rw [List.foldl_cons]
          refine ih _ ?_
          cases acc.1.getNode leaf_id with
          | none => exact h
          | some _ =>
            exact heapPred_modifyObj _ acc.1 _ _ h
              (fun x hx => pastryWF_addToState acc.1 x tgt hx)
      refine heapPred_setObj _ _ _ _ ?_ ?_
      · exact h4 _ _ _ h1
      · exact h3 _ _ h2

theorem pastryWF_leave (net : PastryNet) (selfId : Nat)
    (hall : ∀ p ∈ net.heap, PastryWF p.2) :
    ∀ p ∈ (pastryLeave net selfId).1.heap, PastryWF p.2 := by
  rw [pastryLeave]
  cases hobj : net.getObj selfId with
  | none => exact hall
  | some n =>
    dsimp only
    have h1 : ∀ (l : List Nat) (acc : PastryNet × Nat), (∀ p ∈ acc.1.heap, PastryWF p.2) →
        ∀ p ∈ (l.foldl (fun (acc : PastryNet × Nat) leaf_id =>
          match acc.1.getNode leaf_id with
          | none => acc
          | some _ =>
            (acc.1.modifyObj leaf_id (fun leafN =>
              { leafN with
                  leaf_set := leafN.leaf_set.erase n.node_id,
                  routing_table := leafN.routing_table.map (fun row =>
                    row.map (fun e => if e = some n.node_id then none else e)) }),
              acc.2 + 1)) acc).1.heap, PastryWF p.2 := by
      intro l
      induction l with
      | nil => intro acc h; exact h
      | cons leaf_id rest ih =>
        intro acc h
        rw [List.foldl_cons]
        refine ih _ ?_
        cases acc.1.getNode leaf_id with
        | none => exact h
        | some _ =>
          refine heapPred_modifyObj _ acc.1 _ _ h (fun x hx => ?_)
          obtain ⟨hleaf, hrows, hrow⟩ := hx
          refine ⟨?_, ?_, ?_⟩
          · show (x.leaf_set.erase n.node_id).length ≤ x.leaf_size
            exact le_trans (List.length_erase_le ..) hleaf
          · show (x.routing_table.map _).length = x.num_digits
            rw [List.length_map]
            exact hrows
          · intro row hr
            show row.length = x.base
            obtain ⟨row0, hr0, hreq⟩ := List.mem_map.mp hr
            subst hreq
            rw [List.length_map]
            exact hrow row0 hr0
    have h2 : ∀ (net2 : PastryNet), (∀ p ∈ net2.heap, PastryWF p.2) →
        ∀ p ∈ ((match n.leaf_set with
          | [] => net2
          | c :: cs =>
            match net2.getNode (pyMinBy (fun x => pCirc n n.node_id x) c cs) with
            | none => net2
            | some _ =>
              net2.modifyObj (pyMinBy (fun x => pCirc n n.node_id x) c cs)
                (fun (t : PastryNode) =>
                  { t with data :=
                      (n.data.foldl (fun acc (kv : Nat × Nat) =>
                        alistSet acc kv.1 kv.2) t.data) })) : PastryNet).heap,
          PastryWF p.2 := by
      intro net2 h
      cases n.leaf_set with
      | nil => exact h
      | cons c cs =>
        dsimp only
        cases net2.getNode (pyMinBy (fun x => pCirc n n.node_id x) c cs) with
        | none => exact h
        | some _ =>
          exact heapPred_modifyObj _ net2 _ _ h (fun x hx => hx)
    exact heapPred_unregister _ _ _ (h2 _ (h1 n.leaf_set (net, 0) hall))

theorem pastryWF_stabilize (net : PastryNet) (selfId : Nat)
    (hall : ∀ p ∈ net.heap, PastryWF p.2) :
    ∀ p ∈ (pastryStabilize net selfId).heap, PastryWF p.2 := by
  rw [pastryStabilize]
  cases hobj : net.getObj selfId with
  | none => exact hall
  | some n =>
    dsimp only
    have hn : PastryWF n := heapPred_getObj _ net selfId n hall hobj
    have hn1 : PastryWF
        { n with
            leaf_set := n.leaf_set.filter (fun nid => (net.getNode nid).isSome),
            routing_table := n.routing_table.map (fun (row : List (Option Nat)) =>
              row.map (fun e =>
                match e with
                | some x => if (net.getNode x).isNone then none else e
                | none => none)) } := by
      obtain ⟨hleaf, hrows, hrow⟩ := hn
      refine ⟨?_, ?_, ?_⟩
      · show (n.leaf_set.filter _).length ≤ n.leaf_size
        exact le_trans (List.length_filter_le ..) hleaf
      · show (n.routing_table.map _).length = n.num_digits
        rw [List.length_map]
        exact hrows
      · intro row hr
        show row.length = n.base
        obtain ⟨row0, hr0, hreq⟩ := List.mem_map.mp hr
        subst hreq
        rw [List.length_map]
        exact hrow row0 hr0
    refine heapPred_setObj _ net selfId _ hall ?_
    have h2 : ∀ (l : List Nat) (acc : PastryNode), PastryWF acc →
        PastryWF (l.foldl (fun acc leaf_id =>
          match net.getNode leaf_id with
          | none => acc
          | some leaf => pastryIngestPeer net acc leaf) acc) := by
      intro l
      induction l with
      | nil => intro acc h; exact h
      | cons leaf_id rest ih =>
        intro acc h
        rw [List.foldl_cons]
        refine ih _ ?_
        cases net.getNode leaf_id with
        | none => exact h
        | some leaf => exact pastryWF_ingestPeer net acc leaf h
    exact h2 _ _ hn1

theorem pastryWF_store (net : PastryNet) (selfId key v : Nat)
    (hall : ∀ p ∈ net.heap, PastryWF p.2) :
    ∀ p ∈ (pastryStore net selfId key v).1.heap, PastryWF p.2 := by
  rw [pastryStore]
  cases net.getObj selfId with
  | none => exact hall
  | some n =>
    dsimp only
    split
    · cases net.getNode (pastryLookup net n key).responsible_node with
      | none => exact hall
      | some _ => exact heapPred_modifyObj _ net _ _ hall (fun x hx => hx)
    · exact hall

/-- Every reachable Pastry network satisfies the structural invariant. -/
theorem pastryReach_wf (m bb lsz : Nat) (net : PastryNet)
    (h : PastryReach m bb lsz net) : ∀ p ∈ net.heap, PastryWF p.2 := by
  induction h with
  | empty => intro p hp; exact (nomatch hp)
  | join net nid bs _ _ ih =>
    exact pastryWF_join net (pastryInit nid m bb lsz) bs ih (pastryWF_init nid m bb lsz)
  | stabilize net i _ ih => exact pastryWF_stabilize net i ih
  | leave net i _ ih => exact pastryWF_leave net i ih
  | store net i key v _ ih => exact pastryWF_store net i key v ih

/-- The Pastry size bound from the structural invariant. -/
theorem pastryRTS_le (n : PastryNode) (h : PastryWF n) :
    pastryRTS n ≤ n.leaf_size + n.num_digits * n.base := by
  obtain ⟨hleaf, hrows, hrow⟩ := h
  rw [pastryRTS]
  have hsum : (n.routing_table.map (fun row => row.countP Option.isSome)).sum ≤
      n.base * n.routing_table.length := by
    refine sum_map_le _ n.base n.routing_table (fun row hr => ?_)
    calc row.countP Option.isSome ≤ row.length := List.countP_le_length _
      _ = n.base := hrow row hr
  rw [hrows] at hsum
  have hc : n.num_digits * n.base = n.base * n.num_digits := Nat.mul_comm ..
  omega

/-- C5: in every network reachable by driving the public API, every
node's `routing_table_size()` obeys its protocol bound: at most `m`
distinct non-self fingers (RING), at most `k·m` total bucket entries
(XOR), at most `leaf_size + num_digits·base` entries (PREFIX). -/
theorem routing_table_size_bounds :
    (∀ (m : Nat) (net : ChordNet), ChordReach m net →
        ∀ p ∈ net.heap, chordRTS p.2 ≤ p.2.id_bits) ∧
    (∀ (m k a : Nat) (net : KadNet), KadReach m k a net →
        ∀ p ∈ net.heap, kadRTS p.2 ≤ p.2.k * p.2.id_bits) ∧
    (∀ (m bb lsz : Nat) (net : PastryNet), PastryReach m bb lsz net →
        ∀ p ∈ net.heap, pastryRTS p.2 ≤ p.2.leaf_size + p.2.num_digits * p.2.base) := by
  refine ⟨fun m net h p hp => ?_, fun m k a net h p hp => ?_,
    fun m bb lsz net h p hp => ?_⟩
  · exact chordRTS_le p.2 (chordReach_len m net h p hp)
  · exact kadRTS_le p.2 (kadReach_wf m k a net h p hp)
  · exact pastryRTS_le p.2 (pastryReach_wf m bb lsz net h p hp)

/-- C5 (witness): the bound applied to the concrete reachable network in
which Kademlia node 0 (`m = 4`, `k = 8`, `α = 3`) joined alone and then
node 1 joined through it. -/
theorem routing_table_size_bounds_holds :
    ∀ p ∈ (kadJoinNew (kadJoinNew ⟨[], []⟩ 0 4 8 3 none) 1 4 8 3 (some 0)).heap,
      kadRTS p.2 ≤ p.2.k * p.2.id_bits :=
  routing_table_size_bounds.2.1 4 8 3 _
    (KadReach.join _ 1 (some 0)
      (KadReach.join _ 0 none KadReach.empty (by decide)) (by decide))

/-! ## C4: the `finger_table[0] == successor` invariant -/

/-- The claimed Chord invariant: finger 0 equals the successor. -/
def chordStrongInv (n : ChordNode) : Prop :=
  n.finger_table.getD 0 n.node_id = n.successor

/-- What the code actually maintains: the invariant, or a successor
reset to self (the stabilize path with a dead successor and no live
backup leaves finger 0 stale). -/
def chordWeakInv (n : ChordNode) : Prop :=
  chordStrongInv n ∨ n.successor = n.node_id

theorem getD_set_ne {α : Type} (l : List α) (i j : Nat) (v d : α) (h : i ≠ j) :
    (l.set i v).getD j d = l.getD j d := by
  rw [List.getD_eq_getElem?_getD, List.getD_eq_getElem?_getD, List.getElem?_set_ne h]

theorem getD_set_zero {α : Type} (l : List α) (v d : α) (h : 0 < l.length) :
    (l.set 0 v).getD 0 d = v := by
  cases l with
  | nil => exact absurd h (by simp)
  | cons x xs => rfl

/-- The first loop iteration of `lookup((node_id + 1) mod 2^m)` from any
node with in-range id and successor succeeds immediately with the node's
own successor: the successor interval always contains the next ring
position. -/
theorem inHalfOpen_next (a s : Int) (m : Nat) (ha : 0 ≤ a ∧ a < 2 ^ m)
    (hs : 0 ≤ s ∧ s < 2 ^ m) : inHalfOpen ((a + 1) % (2 ^ m : Int)) a s = true := by
  rw [inHalfOpen]
  by_cases hab : a = s
  · rw [if_pos hab]
  · rw [if_neg hab]
    have hspace : (1 : Int) ≤ 2 ^ m := one_le_pow₀ (by norm_num)
    by_cases hlast : a = 2 ^ m - 1
    · have ht : (a + 1) % (2 ^ m : Int) = 0 := by
        rw [hlast]
        simp
      rw [ht]
      split
      · rename_i hlt
        exact absurd hlt (by omega)
      · simp only [decide_eq_true_eq]
        right
        omega
    · have ht : (a + 1) % (2 ^ m : Int) = a + 1 := by
        rw [Int.emod_eq_of_lt (by omega) (by omega)]
      rw [ht]
      split
      · simp only [decide_eq_true_eq]
        omega
      · simp only [decide_eq_true_eq]
        left
        omega

theorem chordLookup_next_self (net : ChordNet) (n : ChordNode)
    (ha : 0 ≤ n.node_id ∧ n.node_id < 2 ^ n.id_bits)
    (hs : 0 ≤ n.successor ∧ n.successor < 2 ^ n.id_bits) :
    chordLookup net n ((n.node_id + 2 ^ (0 : Nat)) % (2 ^ n.id_bits : Int)) =
      ⟨(n.node_id + 2 ^ (0 : Nat)) % (2 ^ n.id_bits : Int), n.successor, 0,
        [n.node_id], true⟩ := by
  rw [chordLookup, chordLookupGo]
  rw [if_pos (Nat.zero_le _)]
  rw [if_pos (by
    rw [show ((2 : Int) ^ (0 : Nat)) = 1 from rfl]
    exact inHalfOpen_next n.node_id n.successor n.id_bits ha hs)]

/-- The combined per-node invariant carried through reachability. -/
def chordOK (m : Nat) (n : ChordNode) : Prop :=
  chordWeakInv n ∧ n.finger_table.length = n.id_bits ∧ n.id_bits = m ∧
    0 ≤ n.node_id ∧ n.node_id < 2 ^ m

/-- The network-level invariant: every heap object is `chordOK` and every
registered id lies in the id space. -/
def chordNetOK (m : Nat) (net : ChordNet) : Prop :=
  (∀ p ∈ net.heap, chordOK m p.2) ∧ ∀ i ∈ net.reg, 0 ≤ i ∧ i < 2 ^ m

/-- Chord networks reachable by driving the public API from an empty
simulator with node ids inside the id space `[0, 2^m)`, as the
benchmark harness does (its ids come from `generate_node_ids`). -/
inductive ChordReachIn (m : Nat) : ChordNet → Prop where
  | empty : ChordReachIn m ⟨[], []⟩
  | join (net : ChordNet) (nid : Int) (bs : Option Int) : ChordReachIn m net →
      net.getObj nid = none → 0 ≤ nid → nid < 2 ^ m →
      ChordReachIn m (chordJoinNew net nid m bs)
  | stabilize (net : ChordNet) (i : Int) : ChordReachIn m net →
      ChordReachIn m (chordStabilize net i)
  | leave (net : ChordNet) (i : Int) : ChordReachIn m net →
      ChordReachIn m (chordLeave net i).1
  | store (net : ChordNet) (i key v : Int) : ChordReachIn m net →
      ChordReachIn m (chordStore net i key v).1

theorem chordOK_init (nid : Int) (m : Nat) (h0 : 0 ≤ nid) (h1 : nid < 2 ^ m) :
    chordOK m (chordInit nid m) :=
  ⟨Or.inr rfl, List.length_replicate .., rfl, h0, h1⟩

theorem chordOK_pred (m : Nat) (n : ChordNode) (p : Option Int) (h : chordOK m n) :
    chordOK m { n with predecessor := p } := h

theorem chordOK_data (m : Nat) (n : ChordNode) (d : List (Int × Int)) (h : chordOK m n) :
    chordOK m { n with data := d } := h

theorem chordOK_succlist (m : Nat) (n : ChordNode) (l : List Int) (h : chordOK m n) :
    chordOK m { n with successor_list := l } := h

theorem chordOK_set_strong (m : Nat) (n : ChordNode) (v : Int) (hm : 0 < m)
    (h : chordOK m n) :
    chordOK m { n with successor := v, finger_table := n.finger_table.set 0 v } := by
  obtain ⟨_, hlen, hbits, h0, h1⟩ := h
  refine ⟨Or.inl ?_, ?_, hbits, h0, h1⟩
  · rw [chordStrongInv]
    exact getD_set_zero _ _ _ (by omega)
  · rw [List.length_set]; exact hlen

theorem chordOK_set_self (m : Nat) (n : ChordNode) (h : chordOK m n) :
    chordOK m { n with successor := n.node_id } :=
  ⟨Or.inr rfl, h.2.1, h.2.2.1, h.2.2.2.1, h.2.2.2.2⟩

theorem chordOK_set_finger_ge1 (m : Nat) (n : ChordNode) (i : Nat) (v : Int)
    (hi : 1 ≤ i) (h : chordOK m n) :
    chordOK m { n with finger_table := n.finger_table.set i v } := by
  obtain ⟨hw, hlen, hbits, h0, h1⟩ := h
  refine ⟨?_, ?_, hbits, h0, h1⟩
  · rcases hw with hs | hr
    · left
      rw [chordStrongInv] at hs ⊢
      rw [getD_set_ne _ _ _ _ _ (by omega)]
      exact hs
    · right; exact hr
  · rw [List.length_set]; exact hlen

theorem netOK_setObj (m : Nat) (net : ChordNet) (i : Int) (n : ChordNode)
    (h : chordNetOK m net) (hn : chordOK m n) : chordNetOK m (net.setObj i n) :=
  ⟨heapPred_setObj _ net i n h.1 hn, h.2⟩

theorem netOK_modifyObj (m : Nat) (net : ChordNet) (i : Int) (f : ChordNode → ChordNode)
    (h : chordNetOK m net) (hf : ∀ x, chordOK m x → chordOK m (f x)) :
    chordNetOK m (net.modifyObj i f) := by
  refine ⟨heapPred_modifyObj _ net i f h.1 hf, ?_⟩
  rw [Net.modifyObj]
  cases alistGet net.heap i with
  | none => exact h.2
  | some n => exact h.2

theorem netOK_register (m : Nat) (net : ChordNet) (i : Int)
    (h : chordNetOK m net) (h0 : 0 ≤ i) (h1 : i < 2 ^ m) :
    chordNetOK m (net.register i) := by
  refine ⟨h.1, ?_⟩
  intro j hj
  rw [Net.register] at hj
  dsimp only at hj
  revert hj
  split
  · exact h.2 j
  · intro hj
    rcases List.mem_cons.mp hj with hj | hj
    · exact hj ▸ ⟨h0, h1⟩
    · exact h.2 j hj

theorem netOK_unregister (m : Nat) (net : ChordNet) (i : Int)
    (h : chordNetOK m net) : chordNetOK m (net.unregister i) := by
  refine ⟨h.1, ?_⟩
  intro j hj
  rw [Net.unregister] at hj
  exact h.2 j (List.mem_filter.mp hj).1

theorem alistGet_set_isSome {κ α : Type} [DecidableEq κ] (l : List (κ × α)) (k i : κ)
    (v : α) (h : (alistGet l i).isSome = true) :
    (alistGet (alistSet l k v) i).isSome = true := by
  by_cases hk : k = i
  · rw [hk, alistGet_set_self]; rfl
  · rw [alistGet_set_other _ _ _ _ hk]; exact h

theorem getNode_setObj_isSome {κ ν : Type} [DecidableEq κ] (net : Net κ ν) (k i : κ)
    (v : ν) (h : (net.getNode i).isSome = true) :
    ((net.setObj k v).getNode i).isSome = true := by
  rw [Net.getNode] at h ⊢
  by_cases hmem : i ∈ net.reg
  · rw [if_pos hmem] at h
    rw [if_pos (show i ∈ (net.setObj k v).reg from hmem)]
    exact alistGet_set_isSome net.heap k i v h
  · rw [if_neg hmem] at h
    exact (nomatch h)

theorem getNode_modifyObj_isSome {κ ν : Type} [DecidableEq κ] (net : Net κ ν) (k : κ)
    (f : ν → ν) (i : κ) (h : (net.getNode i).isSome = true) :
    ((net.modifyObj k f).getNode i).isSome = true := by
  rw [Net.modifyObj]
  cases alistGet net.heap k with
  | none => exact h
  | some n => exact getNode_setObj_isSome net k i (f n) h

theorem getNode_isSome_mem_reg {κ ν : Type} [DecidableEq κ] (net : Net κ ν) (i : κ)
    (h : (net.getNode i).isSome = true) : i ∈ net.reg := by
  rw [Net.getNode] at h
  revert h
  split
  · intro _; assumption
  · intro h; exact (nomatch h)

theorem getObj_modifyObj {κ ν : Type} [DecidableEq κ] (net : Net κ ν) (i : κ)
    (f : ν → ν) (k : κ) :
    (net.modifyObj i f).getObj k =
      if i = k then (net.getObj k).map f else net.getObj k := by
  rw [Net.modifyObj]
  cases h : alistGet net.heap i with
  | none =>
    dsimp only
    by_cases hik : i = k
    · subst hik
      rw [if_pos rfl, Net.getObj, h]
      rfl
    · rw [if_neg hik]
  | some n =>
    dsimp only
    by_cases hik : i = k
    · subst hik
      rw [if_pos rfl, Net.getObj, Net.getObj, h]
      show alistGet (alistSet net.heap i (f n)) i = some (f n)
      exact alistGet_set_self ..
    · rw [if_neg hik, Net.getObj, Net.getObj]
      exact alistGet_set_other _ _ _ _ hik

/-- A lookup from a node that is its own successor hits the first
interval test immediately. -/
theorem chordLookup_self_succ (net : ChordNet) (n : ChordNode) (key : Int)
    (h : n.successor = n.node_id) :
    chordLookup net n key = ⟨key, n.successor, 0, [n.node_id], true⟩ := by
  rw [chordLookup, chordLookupGo]
  rw [if_pos (Nat.zero_le _)]
  rw [if_pos (show inHalfOpen key n.node_id n.successor = true by
    rw [h, inHalfOpen, if_pos rfl])]

theorem mem_range_drop_one (k i : Nat) (h : i ∈ (List.range k).drop 1) : 1 ≤ i := by
  cases k with
  | zero => exact (nomatch h)
  | succ k2 =>
    rw [List.range_succ_eq_map] at h
    rw [List.drop_one, List.tail_cons] at h
    obtain ⟨a, _, ha⟩ := List.mem_map.mp h
    omega

theorem chordJoinFingers_OK (m : Nat) (net : ChordNet) (bnode : ChordNode) :
    ∀ (l : List Nat) (n : ChordNode) (msgs : Nat), (∀ i ∈ l, 1 ≤ i) → chordOK m n →
      chordOK m (chordJoinFingers net bnode (n, msgs) l).1 := by
  intro l
  induction l with
  | nil => intro n msgs _ h; exact h
  | cons i is ih =>
    intro n msgs hge h
    rw [chordJoinFingers]
    exact ih _ _ (fun j hj => hge j (List.mem_cons_of_mem _ hj))
      (chordOK_set_finger_ge1 m n i _ (hge i (List.mem_cons_self ..)) h)

theorem chordJoin_netOK (m : Nat) (net : ChordNet) (selfId : Int) (bs : Option Int)
    (hm : 0 < m) (h : chordNetOK m net) (h0 : 0 ≤ selfId) (h1 : selfId < 2 ^ m) :
    ∀ r, chordJoin net selfId bs = some r → chordNetOK m r.1 := by
  intro r hr
  rw [chordJoin] at hr
  cases hobj : net.getObj selfId with
  | none => rw [hobj] at hr; exact (nomatch hr)
  | some n =>
    rw [hobj] at hr
    have hn : chordOK m n := heapPred_getObj _ net selfId n h.1 hobj
    cases bs with
    | none =>
      cases hr
      refine netOK_register m _ selfId (netOK_setObj m net selfId _ h ?_) h0 h1
      exact ⟨Or.inr rfl, List.length_replicate .., hn.2.2.1, hn.2.2.2.1, hn.2.2.2.2⟩
    | some b =>
      dsimp only at hr
      cases hb : net.getNode b with
      | none => rw [hb] at hr; exact (nomatch hr)
      | some bnode =>
        rw [hb] at hr
        dsimp only at hr
        cases hr
        refine netOK_register m _ selfId (netOK_setObj m net selfId _ h ?_) h0 h1
        refine chordJoinFingers_OK m net bnode _ _ _
          (mem_range_drop_one n.id_bits) ?_
        exact chordOK_set_strong m { n with predecessor := none } _ hm hn

theorem chordJoinNew_netOK (m : Nat) (net : ChordNet) (nid : Int) (bs : Option Int)
    (hm : 0 < m) (h : chordNetOK m net) (h0 : 0 ≤ nid) (h1 : nid < 2 ^ m) :
    chordNetOK m (chordJoinNew net nid m bs) := by
  rw [chordJoinNew]
  have hnet1 : chordNetOK m (net.setObj nid (chordInit nid m)) :=
    netOK_setObj m net nid _ h (chordOK_init nid m h0 h1)
  cases hj : chordJoin (net.setObj nid (chordInit nid m)) nid bs with
  | none => exact hnet1
  | some r => exact chordJoin_netOK m _ nid bs hm hnet1 h0 h1 r hj

theorem chordLeave_netOK (m : Nat) (net : ChordNet) (selfId : Int)
    (hm : 0 < m) (h : chordNetOK m net) : chordNetOK m (chordLeave net selfId).1 := by
  rw [chordLeave]
  cases hobj : net.getObj selfId with
  | none => exact h
  | some n =>
    dsimp only
    have h1 : ∀ (net0 : ChordNet), chordNetOK m net0 → chordNetOK m
        (if n.successor ≠ n.node_id then
          match net0.getNode n.successor with
          | some _ =>
            (net0.modifyObj n.successor (fun s => { s with predecessor := n.predecessor }), 1)
          | none => (net0, 0)
        else (net0, 0)).1 := by
      intro net0 h0
      split
      · cases net0.getNode n.successor with
        | none => exact h0
        | some _ => exact netOK_modifyObj m net0 _ _ h0 (fun x hx => chordOK_pred m x _ hx)
      · exact h0
    have h2 : ∀ (net1 : ChordNet), chordNetOK m net1 → chordNetOK m
        (match n.predecessor with
         | some p =>
           if p ≠ n.node_id then
             match net1.getNode p with
             | some _ =>
               (net1.modifyObj p (fun q =>
                 { q with successor := n.successor,
                          finger_table := q.finger_table.set 0 n.successor }), 1)
             | none => (net1, 0)
           else (net1, 0)
         | none => (net1, 0)).1 := by
      intro net1 h0
      cases n.predecessor with
      | none => exact h0
      | some p =>
        dsimp only
        split
        · cases net1.getNode p with
          | none => exact h0
          | some _ =>
            exact netOK_modifyObj m net1 _ _ h0
              (fun x hx => chordOK_set_strong m x _ hm hx)
        · exact h0
    have h3 : ∀ (net2 : ChordNet), chordNetOK m net2 → chordNetOK m
        (if n.successor ≠ n.node_id then
          match net2.getNode n.successor with
          | some _ =>
            net2.modifyObj n.successor (fun s =>
              { s with data := n.data.foldl (fun acc kv => alistSet acc kv.1 kv.2) s.data })
          | none => net2
        else net2) := by
      intro net2 h0
      split
      · cases net2.getNode n.successor with
        | none => exact h0
        | some _ => exact netOK_modifyObj m net2 _ _ h0 (fun x hx => chordOK_data m x _ hx)
      · exact h0
    exact netOK_unregister m _ selfId (h3 _ (h2 _ (h1 net h)))

theorem chordStore_netOK (m : Nat) (net : ChordNet) (selfId key v : Int)
    (h : chordNetOK m net) : chordNetOK m (chordStore net selfId key v).1 := by
  rw [chordStore]
  cases hobj : net.getObj selfId with
  | none => exact h
  | some n =>
    dsimp only
    split
    · cases net.getNode (chordLookup net n key).responsible_node with
      | none => exact h
      | some _ => exact netOK_modifyObj m net _ _ h (fun x hx => chordOK_data m x _ hx)
    · exact h

theorem chordFixFingers_ge1 (m : Nat) (selfId : Int) :
    ∀ (l : List Nat) (net : ChordNet), (∀ i ∈ l, 1 ≤ i) → chordNetOK m net →
      chordNetOK m (chordFixFingers selfId net l) := by
  intro l
  induction l with
  | nil => intro net _ h; exact h
  | cons i is ih =>
    intro net hge h
    rw [chordFixFingers]
    refine ih _ (fun j hj => hge j (List.mem_cons_of_mem _ hj)) ?_
    cases hobj : net.getObj selfId with
    | none => exact h
    | some n =>
      dsimp only
      split
      · exact netOK_setObj m net selfId _ h
          (chordOK_set_finger_ge1 m n i _ (hge i (List.mem_cons_self ..))
            (heapPred_getObj _ net selfId n h.1 hobj))
      · exact h

theorem chordFixFingers_all_netOK (m : Nat) (selfId : Int) (net : ChordNet)
    (hm : 0 < m) (h : chordNetOK m net)
    (hl : ∀ q, net.getObj selfId = some q → (net.getNode q.successor).isSome = true) :
    chordNetOK m (chordFixFingers selfId net (List.range m)) := by
  obtain ⟨k, rfl⟩ : ∃ k, m = k + 1 := ⟨m - 1, by omega⟩
  have hge : ∀ i ∈ (List.range k).map Nat.succ, 1 ≤ i := by
    intro i hi
    obtain ⟨a, -, rfl⟩ := List.mem_map.mp hi
    omega
  rw [List.range_succ_eq_map, chordFixFingers]
  cases hobj : net.getObj selfId with
  | none => exact chordFixFingers_ge1 _ selfId _ net hge h
  | some n =>
    dsimp only
    have hOKn : chordOK (k + 1) n := heapPred_getObj _ net selfId n h.1 hobj
    have hlive := hl n hobj
    have hrange := h.2 n.successor (getNode_isSome_mem_reg net _ hlive)
    have hlook : chordLookup net n ((n.node_id + 2 ^ 0) % (2 ^ n.id_bits : Int)) =
        ⟨(n.node_id + 2 ^ 0) % (2 ^ n.id_bits : Int), n.successor, 0, [n.node_id], true⟩ := by
      refine chordLookup_next_self net n ⟨hOKn.2.2.2.1, ?_⟩ ⟨hrange.1, ?_⟩
      · rw [hOKn.2.2.1]; exact hOKn.2.2.2.2
      · rw [hOKn.2.2.1]; exact hrange.2
    rw [hlook]
    dsimp only
    rw [if_pos rfl]
    exact chordFixFingers_ge1 _ selfId _ _ hge
      (netOK_setObj _ net selfId _ h (chordOK_set_strong _ n n.successor hm hOKn))

theorem chordNotify_netOK (m : Nat) (net : ChordNet) (j c : Int)
    (h : chordNetOK m net) : chordNetOK m (chordNotify net j c) := by
  rw [chordNotify]
  refine netOK_modifyObj m net j _ h (fun x hx => ?_)
  split
  · exact hx
  · split
    · exact chordOK_pred m x _ hx
    · exact hx

theorem chordNotify_L (net : ChordNet) (j c selfId : Int)
    (hL : ∀ q, net.getObj selfId = some q → (net.getNode q.successor).isSome = true) :
    ∀ q, (chordNotify net j c).getObj selfId = some q →
      ((chordNotify net j c).getNode q.successor).isSome = true := by
  intro q hq
  rw [chordNotify, getObj_modifyObj] at hq
  rw [chordNotify]
  by_cases hj : j = selfId
  · rw [if_pos hj] at hq
    cases ho : net.getObj selfId with
    | none => rw [ho] at hq; exact (nomatch hq)
    | some n2 =>
      rw [ho] at hq
      cases hq
      have hsucc : ((fun n =>
          if c = n.node_id then n
          else if n.predecessor = none ∨ inOpen c (n.predecessor.getD 0) n.node_id then
            { n with predecessor := some c }
          else n) n2).successor = n2.successor := by
        dsimp only
        split
        · rfl
        · split
          · rfl
          · rfl
      rw [hsucc]
      exact getNode_modifyObj_isSome net j _ _ (hL n2 ho)
  · rw [if_neg hj] at hq
    exact getNode_modifyObj_isSome net j _ _ (hL q hq)

theorem chordStabCont_netOK (m : Nat) (net : ChordNet) (selfId : Int) (hm : 0 < m)
    (h : chordNetOK m net)
    (hl : ∀ q, net.getObj selfId = some q → (net.getNode q.successor).isSome = true) :
    chordNetOK m (chordStabCont net selfId) := by
  rw [chordStabCont]
  cases hobj : net.getObj selfId with
  | none => exact h
  | some n =>
    dsimp only
    have hOKn : chordOK m n := heapPred_getObj _ net selfId n h.1 hobj
    have hstep2 : chordNetOK m (match net.getNode n.successor with
        | none => net
        | some succ =>
          match succ.predecessor with
          | none => net
          | some x =>
            if x ≠ n.node_id ∧ (net.getNode x).isSome ∧ inOpen x n.node_id n.successor then
              net.setObj selfId
                { n with successor := x, finger_table := n.finger_table.set 0 x }
            else net) ∧
        ∀ q, (match net.getNode n.successor with
        | none => net
        | some succ =>
          match succ.predecessor with
          | none => net
          | some x =>
            if x ≠ n.node_id ∧ (net.getNode x).isSome ∧ inOpen x n.node_id n.successor then
              net.setObj selfId
                { n with successor := x, finger_table := n.finger_table.set 0 x }
            else net).getObj selfId = some q →
          ((match net.getNode n.successor with
        | none => net
        | some succ =>
          match succ.predecessor with
          | none => net
          | some x =>
            if x ≠ n.node_id ∧ (net.getNode x).isSome ∧ inOpen x n.node_id n.successor then
              net.setObj selfId
                { n with successor := x, finger_table := n.finger_table.set 0 x }
            else net).getNode q.successor).isSome = true := by
      cases hsucc : net.getNode n.successor with
      | none => exact ⟨h, hl⟩
      | some succ =>
        dsimp only
        cases succ.predecessor with
        | none => exact ⟨h, hl⟩
        | some x =>
          dsimp only
          split
          · rename_i hcond
            refine ⟨netOK_setObj m net selfId _ h (chordOK_set_strong m n x hm hOKn), ?_⟩
            intro q hq
            rw [getObj_setObj_self] at hq
            cases hq
            exact getNode_setObj_isSome net selfId x _ hcond.2.1
          · exact ⟨h, hl⟩
    have hstep3 : ∀ (net2 : ChordNet), chordNetOK m net2 →
        (∀ q, net2.getObj selfId = some q → (net2.getNode q.successor).isSome = true) →
        chordNetOK m (match net2.getObj selfId with
          | none => net2
          | some n2 =>
            match net2.getNode n2.successor with
            | none => net2
            | some succ_node => chordNotify net2 succ_node.node_id n2.node_id) ∧
        ∀ q, (match net2.getObj selfId with
          | none => net2
          | some n2 =>
            match net2.getNode n2.successor with
            | none => net2
            | some succ_node => chordNotify net2 succ_node.node_id n2.node_id).getObj
            selfId = some q →
          ((match net2.getObj selfId with
          | none => net2
          | some n2 =>
            match net2.getNode n2.successor with
            | none => net2
            | some succ_node => chordNotify net2 succ_node.node_id n2.node_id).getNode
            q.successor).isSome = true := by
      intro net2 h2 hl2
      cases ho2 : net2.getObj selfId with
      | none => exact ⟨h2, hl2⟩
      | some n2 =>
        dsimp only
        cases net2.getNode n2.successor with
        | none => exact ⟨h2, hl2⟩
        | some succ_node =>
          exact ⟨chordNotify_netOK m net2 _ _ h2, chordNotify_L net2 _ _ selfId hl2⟩
    have hstep4 : ∀ (net3 : ChordNet), chordNetOK m net3 →
        (∀ q, net3.getObj selfId = some q → (net3.getNode q.successor).isSome = true) →
        chordNetOK m (match net3.getObj selfId with
          | none => net3
          | some n3 => chordFixFingers selfId net3 (List.range n3.id_bits)) := by
      intro net3 h3 hl3
      cases ho3 : net3.getObj selfId with
      | none => exact h3
      | some n3 =>
        dsimp only
        rw [show n3.id_bits = m from (heapPred_getObj _ net3 selfId n3 h3.1 ho3).2.2.1]
        exact chordFixFingers_all_netOK m selfId net3 hm h3 hl3
    have hstep5 : ∀ (net4 : ChordNet), chordNetOK m net4 →
        chordNetOK m (match net4.getObj selfId with
          | none => net4
          | some n4 => net4.setObj selfId
              { n4 with successor_list :=
                  chordWalkSucc net4 n4.node_id n4.successor_list_size n4.successor }) := by
      intro net4 h4
      cases ho4 : net4.getObj selfId with
      | none => exact h4
      | some n4 =>
        dsimp only
        exact netOK_setObj m net4 selfId _ h4
          (chordOK_succlist m n4 _ (heapPred_getObj _ net4 selfId n4 h4.1 ho4))
    refine hstep5 _ (hstep4 _ (hstep3 _ hstep2.1 hstep2.2).1 (hstep3 _ hstep2.1 hstep2.2).2)

theorem chordFirstLive_isSome (net : ChordNet) :
    ∀ (l : List Int) (b : Int), chordFirstLive net l = some b →
      (net.getNode b).isSome = true := by
  intro l
  induction l with
  | nil => intro b hb; exact (nomatch hb)
  | cons x xs ih =>
    intro b hb
    rw [chordFirstLive] at hb
    revert hb
    split
    · intro hb
      cases hb
      rename_i hx
      exact hx
    · exact ih b

theorem chordStabilize_netOK (m : Nat) (net : ChordNet) (selfId : Int) (hm : 0 < m)
    (h : chordNetOK m net) : chordNetOK m (chordStabilize net selfId) := by
  rw [chordStabilize]
  cases hobj : net.getObj selfId with
  | none => exact h
  | some n =>
    dsimp only
    have hOKn : chordOK m n := heapPred_getObj _ net selfId n h.1 hobj
    cases hsucc : net.getNode n.successor with
    | some s =>
      refine chordStabCont_netOK m net selfId hm h ?_
      intro q hq
      rw [hobj] at hq
      cases hq
      rw [hsucc]; rfl
    | none =>
      dsimp only
      cases hback : chordFirstLive net n.successor_list with
      | none =>
        exact netOK_setObj m net selfId _ h (chordOK_set_self m n hOKn)
      | some backup =>
        dsimp only
        have hbl : (net.getNode backup).isSome = true :=
          chordFirstLive_isSome net n.successor_list backup hback
        refine chordStabCont_netOK m _ selfId hm
          (netOK_setObj m net selfId _ h (chordOK_set_strong m n backup hm hOKn)) ?_
        intro q hq
        rw [getObj_setObj_self] at hq
        cases hq
        exact getNode_setObj_isSome net selfId backup _ hbl

theorem chordReachIn_netOK (m : Nat) (hm : 0 < m) :
    ∀ net, ChordReachIn m net → chordNetOK m net := by
  intro net h
  induction h with
  | empty => exact ⟨fun p hp => (nomatch hp), fun i hi => (nomatch hi)⟩
  | join net nid bs _ _ h0 h1 ih => exact chordJoinNew_netOK m net nid bs hm ih h0 h1
  | stabilize net i _ ih => exact chordStabilize_netOK m net i hm ih
  | leave net i _ ih => exact chordLeave_netOK m net i hm ih
  | store net i key v _ ih => exact chordStore_netOK m net i key v ih

/-- C4 (amended): the invariant `finger_table[0] == successor` holds
after construction, and in every network reachable by driving the public
API with ids inside the id space every heap object satisfies the weaker
invariant `finger_table[0] == successor ∨ successor == node_id`; the one
divergence is pinned exactly: the dead-successor path of `stabilize`
(dead successor, no live backup in `successor_list`) resets `successor`
to the node's own id and changes nothing else, leaving finger 0 stale
(lookup and retrieve are pure and notify rewrites only `predecessor`, so
neither can break the invariant). -/
theorem chord_finger0_invariant :
    (∀ (nid : Int) (m : Nat), chordStrongInv (chordInit nid m)) ∧
    (∀ (m : Nat), 0 < m → ∀ (net : ChordNet), ChordReachIn m net →
        ∀ p ∈ net.heap, chordWeakInv p.2) ∧
    (∀ (net : ChordNet) (selfId : Int) (n : ChordNode),
        net.getObj selfId = some n → net.getNode n.successor = none →
        chordFirstLive net n.successor_list = none →
        chordStabilize net selfId =
          net.setObj selfId { n with successor := n.node_id }) := by
  refine ⟨fun nid m => ?_, fun m hm net hr p hp => ?_, fun net selfId n h1 h2 h3 => ?_⟩
  · rw [chordStrongInv, chordInit]
    cases m with
    | zero => rfl
    | succ k => rfl
  · exact ((chordReachIn_netOK m hm net hr).1 p hp).1
  · rw [chordStabilize, h1]
    dsimp only
    rw [h2]
    dsimp only
    rw [h3]

def c4deadNode : ChordNode :=
  { node_id := 0, id_bits := 3, successor := 5, predecessor := none,
    finger_table := [5, 5, 5], successor_list := [], successor_list_size := 3, data := [] }

def c4dead : ChordNet := ⟨[(0, c4deadNode)], [0]⟩

/-- C4 (witness): the weak invariant on the one-node network in which
node 0 joined alone (`m = 3`), and the divergence equation on a concrete
node whose successor 5 is dead with an empty successor list. -/
theorem chord_finger0_invariant_holds :
    (∀ p ∈ (chordJoinNew ⟨[], []⟩ 0 3 none).heap, chordWeakInv p.2) ∧
    chordStabilize c4dead 0 = c4dead.setObj 0 { c4deadNode with successor := 0 } :=
  ⟨chord_finger0_invariant.2.1 3 (by decide) _
      (ChordReachIn.join _ 0 none ChordReachIn.empty (by decide) (by decide) (by decide)),
    chord_finger0_invariant.2.2 c4dead 0 c4deadNode rfl rfl rfl⟩

/-- Step-by-step networks of the public-API run that breaks the claimed
invariant (`m = 3`): node 0 joins alone, node 4 joins through 0 and both
stabilize, node 2 joins through 0 and stabilizes, node 4 leaves, and
node 0 stabilizes once more.  Node 4 left while node 0 still considered
it its successor and node 0's `predecessor` field did not point back, so
the final stabilize takes the dead-successor path with an empty live
backup list: it resets `successor := 0` and leaves
`finger_table = [4, 4, 4]` stale. -/
def c4n0 : ChordNet := chordJoinNew ⟨[], []⟩ 0 3 none

def c4n1 : ChordNet := chordJoinNew c4n0 4 3 (some 0)

def c4n2 : ChordNet := chordStabilize c4n1 4

def c4n3 : ChordNet := chordStabilize c4n2 0

def c4n4 : ChordNet := chordJoinNew c4n3 2 3 (some 0)

def c4n5 : ChordNet := chordStabilize c4n4 2

def c4n6 : ChordNet := (chordLeave c4n5 4).1

def c4final : ChordNet := chordStabilize c4n6 0

/-- C4 (counterexample): the claimed invariant
`finger_table[0] == successor` is NOT preserved in every reachable
state: after the eight public-API operations above — all with ids inside
`[0, 2^3)` — node 0 is a live heap object with `finger_table[0] = 4` but
`successor = 0`.  The culprit is the dead-successor path of
`ChordNode.stabilize` (chord.py lines 165-167), which resets `successor`
to the node's own id without updating the finger table. -/
theorem chord_finger0_invariant_fails :
    ChordReachIn 3 c4final ∧
    ∃ n, c4final.getObj 0 = some n ∧ ¬ chordStrongInv n := by
  constructor
  · exact ChordReachIn.stabilize _ 0
      (ChordReachIn.leave _ 4
        (ChordReachIn.stabilize _ 2
          (ChordReachIn.join _ 2 (some 0)
            (ChordReachIn.stabilize _ 0
              (ChordReachIn.stabilize _ 4
                (ChordReachIn.join _ 4 (some 0)
                  (ChordReachIn.join _ 0 none ChordReachIn.empty (by decide)
                    (by decide) (by decide))
                  (by decide) (by decide) (by decide))))
            (by decide) (by decide) (by decide))))
  · exact ⟨{ node_id := 0, id_bits := 3, successor := 0, predecessor := some 2,
             finger_table := [4, 4, 4], successor_list := [4],
             successor_list_size := 3, data := [] }, by decide,
           by unfold chordStrongInv; decide⟩
